import Mathlib

/-! # CaroloCup2016: the `Car` actuation core (`src/Car.cpp`, `src/CaroloCup.h`)

A shallow embedding of the `Car` class: speed and steering actuation, the
cruise-control PID loop and the brake sequence.

Modelling conventions.

* `float` is the IEEE binary32 format.  A finite `float` is carried as the
  rational (`ℚ`) it denotes; a `float` that may be infinite or NaN is a
  `Velocity`.  In `speedToFreq` and `motorPIDcontrol`, whose results are
  converted to `int`, every `float` operation is modelled (`Velocity.add`,
  `Velocity.sub`, `Velocity.mul`, `Velocity.div`): the exact result is rounded
  to the nearest binary32 number, a tie going to the even significand (`f32`),
  a result beyond `FLT_MAX` is an infinity, and `0 / 0`, `inf - inf` and
  `0 * inf` are NaN.  Elsewhere `float` values are stored and compared only:
  the stored speed, the targets, the gains and the measured speed are
  rationals, and the quotient of `getGroundSpeed`, the product in the
  cruise-mode guard of `setSpeed`, the sign product of `updateMotors` and the
  `int` that `disableCruiseControl` stores as speed are taken exactly.
* `int` is 32 bits wide, in two's complement.  `int` addition and subtraction
  wrap around (`wrapInt`), and the conversion of a `float` to `int` discards
  the fractional part and gives `INT_MIN` for a value outside the range of
  `int`, an infinity or NaN (`floatToInt`, `Velocity.toInt`).  Both are
  undefined in C++; the model takes what two's-complement hardware delivers,
  and the theorems say where they depend on it.  `unsigned long` arithmetic is
  defined to wrap and is modelled modulo `2 ^ 32`.  `unsigned short` values
  are natural numbers; a theorem that depends on their width assumes
  `≤ 65535`.
* The servos are modelled by what is written to them: every `motor.write`,
  every `steeringWheel.write` and every entry into `Car::stop` is appended to
  the `trace` of the system state `Sys`.
* `millis()`, `Odometer::getDistance()` and `Odometer::getSpeed()` are not
  part of the sources; they are oracles of an `Env`, indexed by the number of
  environment reads made so far (`Sys.reads`).
* `Car::setSpeed` and `Car::stop` call each other.  They take a call budget
  and return an `Outcome`: `returned s` when the call comes back with state
  `s`, `running s` when the budget ran out with the call still in progress at
  state `s`.
-/

namespace CaroloCup

/-! ## Constants (`Car.cpp`, lines 7–26) -/

def DEFAULT_PID_LOOP_INTERVAL : Nat := 40
def DEFAULT_KP : ℚ := 5
def DEFAULT_KI : ℚ := 0
def DEFAULT_KD : ℚ := 10

def IDLE_RAW_SPEED : Int := 1500
def MAX_FRONT_RAW_SPEED : Int := 1800
def MAX_BACK_RAW_SPEED : Int := 1200
def IDLE_SPEED : ℚ := 0
def BRAKE_FRONT_RAW_SPEED : Int := 1300
def BRAKE_BACK_RAW_SPEED : Int := 1550
def MAX_BACK_SPEED : ℚ := -2
def MAX_FRONT_SPEED : ℚ := 2
def MAX_BACK_CRUISE_SPEED : ℚ := -2
def MAX_FRONT_CRUISE_SPEED : ℚ := 2
def STRAIGHT_WHEELS : Int := 90
def MAX_RIGHT_DEGREES : Int := 120
def MAX_LEFT_DEGREES : Int := 60

/-- Width of `unsigned long` on the target: arithmetic on it is modulo `2 ^ 32`. -/
def ULONG : Nat := 2 ^ 32

/-! ## Platform helpers -/

/-- The Arduino core's `constrain(amt, low, high)`:
`((amt) < (low) ? (low) : ((amt) > (high) ? (high) : (amt)))`. -/
def constrain {α : Type} [LinearOrder α] (amt low high : α) : α :=
  if amt < low then low else if amt > high then high else amt

/-- Conversion of a `float` to `int`: the fractional part is discarded
(truncation toward zero). -/
def toInt (q : ℚ) : Int :=
  if 0 ≤ q then ⌊q⌋ else ⌈q⌉

/-- The largest `int`, `2 ^ 31 - 1`. -/
def INT_MAX : Int := 2147483647

/-- The least `int`, `-2 ^ 31`. -/
def INT_MIN : Int := -2147483648

/-- The `int` that holds the result of an `int` addition or subtraction whose
exact value is `z`: the value congruent to `z` modulo `2 ^ 32` in
`[INT_MIN, INT_MAX]`. -/
def wrapInt (z : Int) : Int := (z - INT_MIN) % 4294967296 + INT_MIN

/-- Conversion of a finite `float` to `int`: the fractional part is discarded;
when the result is not an `int` the conversion delivers `INT_MIN`. -/
def floatToInt (q : ℚ) : Int :=
  if INT_MIN ≤ toInt q ∧ toInt q ≤ INT_MAX then toInt q else INT_MIN

/-- Rounding to the nearest integer, a tie going to the even neighbour. -/
def roundEven (y : ℚ) : Int :=
  if 2 * Int.fract y < 1 then ⌊y⌋
  else if 1 < 2 * Int.fract y then ⌊y⌋ + 1
  else if ⌊y⌋ % 2 = 0 then ⌊y⌋ else ⌊y⌋ + 1

/-- Worker of `natLog2`: `fuel` bounds the number of halvings. -/
def log2Aux : Nat → Nat → Nat
  | 0, _ => 0
  | fuel + 1, n => if 2 ≤ n then log2Aux fuel (n / 2) + 1 else 0

/-- The position of the leading bit of `n`: the `k` with `2 ^ k ≤ n < 2 ^ (k + 1)`
(0 for `n = 0`). -/
def natLog2 (n : Nat) : Nat := log2Aux n n

/-- The binary exponent of `x ≠ 0`: the `e` with `2 ^ e ≤ |x| < 2 ^ (e + 1)`
(0 for `x = 0`). -/
def log2Floor (x : ℚ) : Int :=
  if x = 0 then 0
  else if (2 : ℚ) ^ ((natLog2 x.num.natAbs : Int) - (natLog2 x.den : Int)) ≤ |x| then
    (natLog2 x.num.natAbs : Int) - (natLog2 x.den : Int)
  else (natLog2 x.num.natAbs : Int) - (natLog2 x.den : Int) - 1

/-- Exponent of the spacing of the binary32 numbers around `x`: 24 significant
bits, least normal exponent `-126` (below it the spacing stays `2 ^ (-149)`). -/
def ulpExp (x : ℚ) : Int := max (log2Floor x) (-126) - 23

/-- The binary32 number nearest to `x`, a tie going to the even significand;
the exponent is not bounded above here (see `Velocity.ofRat`). -/
def f32 (x : ℚ) : ℚ := (roundEven (x / 2 ^ ulpExp x) : ℚ) * 2 ^ ulpExp x

/-- The largest finite binary32 number, `(2 ^ 24 - 1) * 2 ^ 104`. -/
def FLT_MAX : ℚ := (2 ^ 24 - 1) * 2 ^ 104

/-- A `float` as the machine holds it: a finite number, an infinity or NaN.
It is the type of the `velocity` of `getGroundSpeed`, whose division the code
itself can give a zero divisor, and of the intermediate results of
`speedToFreq` and `motorPIDcontrol`. -/
inductive Velocity where
  | fin (q : ℚ)
  | pinf
  | ninf
  | nan
  deriving DecidableEq

/-- The `float` that holds an arithmetic result whose exact value is `q`: `q`
rounded to binary32, or an infinity when the rounded value exceeds `FLT_MAX`
in magnitude. -/
def Velocity.ofRat (q : ℚ) : Velocity :=
  if FLT_MAX < f32 q then .pinf else if f32 q < -FLT_MAX then .ninf else .fin (f32 q)

/-- Conversion of an integer value to `float`. -/
def Velocity.ofInt (z : Int) : Velocity := Velocity.ofRat (z : ℚ)

/-- Conversion `int(x)` of a `float` to `int`; an infinity or NaN gives
`INT_MIN`, as a finite value outside the range of `int` does. -/
def Velocity.toInt : Velocity → Int
  | .fin q => floatToInt q
  | _ => INT_MIN

/-- The `float` negation `-x`. -/
def Velocity.neg : Velocity → Velocity
  | .fin q => .fin (-q)
  | .pinf => .ninf
  | .ninf => .pinf
  | .nan => .nan

/-- The `float` sum `x + y`. -/
def Velocity.add : Velocity → Velocity → Velocity
  | .fin a, .fin b => Velocity.ofRat (a + b)
  | .nan, _ => .nan
  | _, .nan => .nan
  | .pinf, .ninf => .nan
  | .ninf, .pinf => .nan
  | .pinf, _ => .pinf
  | .ninf, _ => .ninf
  | _, .pinf => .pinf
  | _, .ninf => .ninf

/-- The `float` difference `x - y`. -/
def Velocity.sub (x y : Velocity) : Velocity := Velocity.add x (Velocity.neg y)

/-- The `float` product `x * y`. -/
def Velocity.mul : Velocity → Velocity → Velocity
  | .fin a, .fin b => Velocity.ofRat (a * b)
  | .nan, _ => .nan
  | _, .nan => .nan
  | .fin a, .pinf => if a = 0 then .nan else if 0 < a then .pinf else .ninf
  | .fin a, .ninf => if a = 0 then .nan else if 0 < a then .ninf else .pinf
  | .pinf, .fin b => if b = 0 then .nan else if 0 < b then .pinf else .ninf
  | .ninf, .fin b => if b = 0 then .nan else if 0 < b then .ninf else .pinf
  | .pinf, .pinf => .pinf
  | .pinf, .ninf => .ninf
  | .ninf, .pinf => .ninf
  | .ninf, .ninf => .pinf

/-- The `float` quotient `x / y`.  A zero divisor is `+0`: every divisor of
`Car.cpp` that can be zero is converted from an unsigned integer. -/
def Velocity.div : Velocity → Velocity → Velocity
  | .fin a, .fin b =>
    if b = 0 then (if a = 0 then .nan else if 0 < a then .pinf else .ninf)
    else Velocity.ofRat (a / b)
  | .nan, _ => .nan
  | _, .nan => .nan
  | .fin _, _ => .fin 0
  | .pinf, .fin b => if b < 0 then .ninf else .pinf
  | .ninf, .fin b => if b < 0 then .pinf else .ninf
  | _, _ => .nan

/-- The comparison `velocity > x` of floats: false for NaN. -/
def Velocity.gt (v : Velocity) (x : ℚ) : Bool :=
  match v with
  | .fin q => decide (q > x)
  | .pinf => true
  | .ninf => false
  | .nan => false

/-- Product `velocity * s` where `s = abs(_speed)/_speed` is `1` or `-1`. -/
def Velocity.mulSign (v : Velocity) (s : ℚ) : Velocity :=
  match v with
  | .fin q => .fin (q * s)
  | .pinf => if s < 0 then .ninf else .pinf
  | .ninf => if s < 0 then .pinf else .ninf
  | .nan => .nan

/-- The Arduino core's `abs(x)`: `((x) > 0 ? (x) : -(x))`. -/
def arduinoAbs (x : ℚ) : ℚ := if x > 0 then x else -x

/-! ## Data model -/

/-- The fields of `class Odometer` (`CaroloCup.h`, line 32). -/
structure Odometer where
  _odometerInterruptPin : Nat
  _odometerID : Nat
  deriving DecidableEq

/-- What the car does to the outside, in order of occurrence. -/
inductive Event where
  /-- `motor.write(v)` -/
  | motorWrite (v : Int)
  /-- `steeringWheel.write(v)` -/
  | steeringWrite (v : Int)
  /-- entry into `Car::stop()`, the brake sequence -/
  | brake
  deriving DecidableEq

/-- The environment: the clock and the odometer, as oracles.  The `k`-th
environment read of a run gets index `k`. -/
structure Env where
  /-- value of `millis()` at read `k` -/
  millis : Nat → Nat
  /-- value of `encoder.getDistance()` at read `k` -/
  getDistance : Odometer → Nat → Nat
  /-- value of `encoder.getSpeed()` at read `k`, in m/s -/
  getSpeed : Odometer → Nat → ℚ

/-- The fields of `class Car` (`CaroloCup.h`, lines 53–64, and
`_lastMeasuredSpeed`, which `Car.cpp` assigns).  The two `Servo` members are
modelled by the trace of `Sys`. -/
structure Car where
  _steeringWheelPin : Nat
  _escPin : Nat
  _pidLoopInterval : Nat
  _angle : Int
  _speed : ℚ
  _Kp : ℚ
  _Ki : ℚ
  _Kd : ℚ
  _encoder : Odometer
  cruiseControl : Bool
  _lastMotorUpdate : Nat
  _previousDistance : Nat
  _previousControlledSpeed : Int
  _previousError : Int
  _integratedError : Int
  _lastMeasuredSpeed : Velocity
  deriving DecidableEq

/-- A car together with what it has done to its actuators so far (`trace`,
oldest event first) and the number of environment `reads` it has made. -/
structure Sys where
  car : Car
  trace : List Event
  reads : Nat
  deriving DecidableEq

/-- Outcome of a call that may call `stop`/`setSpeed` in turn. -/
inductive Outcome where
  /-- the call came back, leaving the system in state `s` -/
  | returned (s : Sys)
  /-- the call budget ran out with the call still in progress at state `s` -/
  | running (s : Sys)
  deriving DecidableEq

/-- The state an outcome carries. -/
def Outcome.sys : Outcome → Sys
  | .returned s => s
  | .running s => s

/-- Continue with `f` after a call that came back. -/
def Outcome.andThen (o : Outcome) (f : Sys → Outcome) : Outcome :=
  match o with
  | .returned s => f s
  | .running s => .running s

/-- The values written to the motor in a trace, oldest first. -/
def motorWrites : List Event → List Int
  | [] => []
  | Event.motorWrite v :: t => v :: motorWrites t
  | _ :: t => motorWrites t

/-- The raw actuation currently applied to the motor: the last value written
to it, if any. -/
def lastRaw (s : Sys) : Option Int := (motorWrites s.trace).getLast?

/-! ## Environment reads -/

/-- One call of `millis()`. -/
def readMillis (w : Env) (s : Sys) : Nat × Sys :=
  (w.millis s.reads % ULONG, { s with reads := s.reads + 1 })

/-- One call of `_encoder.getDistance()`. -/
def readDistance (w : Env) (s : Sys) : Nat × Sys :=
  (w.getDistance s.car._encoder s.reads % ULONG, { s with reads := s.reads + 1 })

/-- One call of `_encoder.getSpeed()`. -/
def readSpeed (w : Env) (s : Sys) : ℚ × Sys :=
  (w.getSpeed s.car._encoder s.reads, { s with reads := s.reads + 1 })

/-! ## Operations of `Car` -/

/-- `Car::setRawSpeed` (`Car.cpp`, lines 92–95). -/
def setRawSpeed (rawSpeed : Int) (s : Sys) : Sys :=
  let speed := constrain rawSpeed MAX_BACK_RAW_SPEED MAX_FRONT_RAW_SPEED
  { s with trace := s.trace ++ [Event.motorWrite speed] }

/-- `Car::setAngle` (`Car.cpp`, lines 97–100). -/
def setAngle (degrees : Int) (s : Sys) : Sys :=
  let a := constrain (wrapInt (STRAIGHT_WHEELS + degrees)) MAX_LEFT_DEGREES MAX_RIGHT_DEGREES
  { s with car := { s.car with _angle := a }, trace := s.trace ++ [Event.steeringWrite a] }

/-- `Car::getSpeed` (`Car.cpp`, lines 131–134). -/
def getSpeed (s : Sys) : ℚ := s.car._speed

/-- `Car::speedToFreq` (`Car.cpp`, lines 161–169).  The product and the sum
are `float` operations, each rounded; the `return` converts the sum to `int`. -/
def speedToFreq (MpS : ℚ) : Int :=
  if MpS > 0 then
    (Velocity.add (Velocity.mul (.fin MpS) (.ofInt 60)) (.ofInt IDLE_RAW_SPEED)).toInt
  else
    (Velocity.add (Velocity.mul (.fin MpS) (.ofInt 200)) (.ofInt IDLE_RAW_SPEED)).toInt

/-- Subtraction of `unsigned long` values: modulo `2 ^ 32`. -/
def subULong (a b : Nat) : Nat := (a % ULONG + ULONG - b % ULONG) % ULONG

/-- `Car::getGroundSpeed` (`Car.cpp`, lines 83–90). -/
def getGroundSpeed (w : Env) (s : Sys) : Velocity × Sys :=
  let (currentDistance, s1) := readDistance w s
  let dX := subULong currentDistance s1.car._previousDistance
  let s2 := { s1 with car := { s1.car with _previousDistance := currentDistance } }
  let (now, s3) := readMillis w s2
  let dT := subULong now s3.car._lastMotorUpdate
  let velocity :=
    if dT = 0 then (if dX = 0 then Velocity.nan else Velocity.pinf)
    else Velocity.fin ((dX : ℚ) / (dT : ℚ))
  (velocity, s3)

/-- `Car::motorPIDcontrol` (`Car.cpp`, lines 74–81).  `error` and `correction`
are `float` variables and every operation on them is a `float` operation;
`_previousError` and `_integratedError` are `int` fields (`CaroloCup.h`, line
64), so they are converted to `float` where they are used and both
assignments convert back to `int`; `_pidLoopInterval` is an `unsigned short`,
converted to `float` in the product and in the division. -/
def motorPIDcontrol (previousSpeed : Int) (targetSpeed actualSpeed : ℚ) (c : Car) :
    Int × Car :=
  let error := Velocity.sub (.fin targetSpeed) (.fin actualSpeed)
  let c1 := { c with
    _integratedError :=
      (Velocity.add (.ofInt c._integratedError)
        (Velocity.mul error (.ofInt c._pidLoopInterval))).toInt }
  let correction :=
    Velocity.add
      (Velocity.add (Velocity.mul (.fin c1._Kp) error)
        (Velocity.mul (.fin c1._Ki) (.ofInt c1._integratedError)))
      (Velocity.div (Velocity.mul (.fin c1._Kd) (Velocity.sub error (.ofInt c1._previousError)))
        (.ofInt c1._pidLoopInterval))
  let c2 := { c1 with _previousError := error.toInt }
  (constrain (wrapInt (previousSpeed + correction.toInt)) MAX_BACK_RAW_SPEED MAX_FRONT_RAW_SPEED,
    c2)

/-- `Car::enableCruiseControl` (`Car.cpp`, lines 140–151). -/
def enableCruiseControl (w : Env) (encoder : Odometer) (Kp Ki Kd : ℚ)
    (pidLoopInterval : Nat) (s : Sys) : Sys :=
  let s1 := { s with car := { s.car with
    _encoder := encoder
    cruiseControl := true
    _pidLoopInterval := pidLoopInterval
    _lastMotorUpdate := 0
    _previousControlledSpeed := IDLE_RAW_SPEED } }
  let (d, s2) := readDistance w s1
  { s2 with car := { s2.car with
    _previousDistance := d
    _integratedError := 0
    _Kp := Kp
    _Ki := Ki
    _Kd := Kd } }

/-- `Car::disableCruiseControl` (`Car.cpp`, lines 153–156). -/
def disableCruiseControl (s : Sys) : Sys :=
  { s with car := { s.car with
    cruiseControl := false
    _speed := (s.car._previousControlledSpeed : ℚ) } }

/-- The brake loop of `Car::stop` (`Car.cpp`, lines 110–119): `attempts` and
`velocity` are the loop variables; `delay` only lets time pass. -/
def brakeLoop (w : Env) : Nat → Velocity → Sys → Sys
  | 0, _, s => s
  | attempts + 1, velocity, s =>
    if velocity.gt (1 / 5) then
      let s1 :=
        if s.car._speed > 0 then setRawSpeed BRAKE_FRONT_RAW_SPEED s
        else setRawSpeed BRAKE_BACK_RAW_SPEED s
      let (velocity1, s2) := getGroundSpeed w s1
      brakeLoop w attempts velocity1 s2
    else s

/-- The first block of `Car::stop` (`Car.cpp`, lines 103–121). -/
def stopBrake (w : Env) (s : Sys) : Sys :=
  if s.car._speed > 1 / 1000 ∨ s.car._speed < -(1 / 1000) then
    let (now, s1) := readMillis w s
    let s2 := { s1 with car := { s1.car with _lastMotorUpdate := now } }
    let (velocity, s3) := getGroundSpeed w s2
    let s4 := brakeLoop w 1 velocity s3
    setRawSpeed IDLE_RAW_SPEED s4
  else s

mutual

/-- `Car::setSpeed` (`Car.cpp`, lines 49–58). -/
def setSpeed : Nat → Env → ℚ → Sys → Outcome
  | 0, _, _, s => .running s
  | fuel + 1, w, newSpeed, s =>
    if s.car.cruiseControl then
      (if s.car._speed ≠ IDLE_SPEED ∧ newSpeed * s.car._speed ≤ 0 then stop fuel w s
       else .returned s).andThen fun s1 =>
      .returned { s1 with car := { s1.car with
        _speed := constrain newSpeed MAX_BACK_CRUISE_SPEED MAX_FRONT_CRUISE_SPEED } }
    else
      (if s.car._speed ≠ IDLE_SPEED ∧ (newSpeed < 1 / 1000 ∧ newSpeed > -(1 / 1000)) then
         stop fuel w s
       else .returned s).andThen fun s1 =>
      let s2 := { s1 with car := { s1.car with
        _speed := constrain newSpeed MAX_BACK_SPEED MAX_FRONT_SPEED } }
      .returned (setRawSpeed (speedToFreq s2.car._speed) s2)

/-- `Car::stop` (`Car.cpp`, lines 102–129). -/
def stop : Nat → Env → Sys → Outcome
  | 0, _, s => .running s
  | fuel + 1, w, s =>
    let s0 := { s with trace := s.trace ++ [Event.brake] }
    let s1 := stopBrake w s0
    if s1.car.cruiseControl then
      let s2 := setRawSpeed IDLE_RAW_SPEED s1
      let s3 := enableCruiseControl w s2.car._encoder DEFAULT_KP DEFAULT_KI DEFAULT_KD
        DEFAULT_PID_LOOP_INTERVAL s2
      .returned { s3 with car := { s3.car with _speed := IDLE_SPEED } }
    else
      setSpeed fuel w IDLE_SPEED s1

end

/-- The controller step of `Car::updateMotors` (`Car.cpp`, lines 63–68), run when
the stored speed is nonzero. -/
def controlStep (w : Env) (s : Sys) : Sys :=
  let (m, s2) := readSpeed w s
  let measuredSpeed := if s2.car._speed < 0 then m * (-1) else m
  let (controlledSpeed, c3) :=
    motorPIDcontrol s2.car._previousControlledSpeed s2.car._speed measuredSpeed s2.car
  let s3 := setRawSpeed controlledSpeed { s2 with car := c3 }
  let s4 := { s3 with car := { s3.car with _previousControlledSpeed := controlledSpeed } }
  let (v, s5) := getGroundSpeed w s4
  { s5 with car := { s5.car with
    _lastMeasuredSpeed := v.mulSign (arduinoAbs s5.car._speed / s5.car._speed) } }

/-- `Car::updateMotors` (`Car.cpp`, lines 60–72).  `millis()` is read only when
`cruiseControl` holds (`&&` evaluates its right operand on demand). -/
def updateMotors (w : Env) (s : Sys) : Sys :=
  if s.car.cruiseControl then
    let (now, s1) := readMillis w s
    if now > (s1.car._lastMotorUpdate + s1.car._pidLoopInterval) % ULONG then
      let s2 := if s1.car._speed ≠ 0 then controlStep w s1 else s1
      let (now1, s3) := readMillis w s2
      { s3 with car := { s3.car with _lastMotorUpdate := now1 } }
    else s1
  else s

/-- `Car::begin` (`Car.cpp`, lines 34–39); attaching the servos writes nothing. -/
def begin (fuel : Nat) (w : Env) (s : Sys) : Outcome :=
  (setSpeed fuel w IDLE_SPEED s).andThen fun s1 =>
  .returned (setAngle (toInt IDLE_SPEED) s1)

/-- The public operations of `Car` (`CaroloCup.h`, lines 38–46). -/
inductive Op where
  | begin
  | setSpeed (speed : ℚ)
  | setAngle (degrees : Int)
  | stop
  | enableCruiseControl (encoder : Odometer) (Kp Ki Kd : ℚ) (frequency : Nat)
  | updateMotors
  | disableCruiseControl

/-- Run one public operation with the given call budget. -/
def exec (fuel : Nat) (w : Env) (op : Op) (s : Sys) : Outcome :=
  match op with
  | .begin => begin fuel w s
  | .setSpeed speed => setSpeed fuel w speed s
  | .setAngle degrees => .returned (setAngle degrees s)
  | .stop => stop fuel w s
  | .enableCruiseControl encoder Kp Ki Kd frequency =>
    .returned (enableCruiseControl w encoder Kp Ki Kd frequency s)
  | .updateMotors => .returned (updateMotors w s)
  | .disableCruiseControl => .returned (disableCruiseControl s)

/-! ## Vocabulary of the statements -/

/-- The motor writes among `new` are all within the hardware bounds. -/
def RawWithinBounds (new : List Event) : Prop :=
  ∀ v, Event.motorWrite v ∈ new → MAX_BACK_RAW_SPEED ≤ v ∧ v ≤ MAX_FRONT_RAW_SPEED

/-- State `s2` continues `s1`: its trace is the trace of `s1` followed by
events whose motor writes are all within the hardware bounds. -/
def Continues (s1 s2 : Sys) : Prop :=
  ∃ new, s2.trace = s1.trace ++ new ∧ RawWithinBounds new

/-- Car `c2` differs from `c1` at most in the distance baseline and the
last-tick timestamp. -/
def SameButSamples (c1 c2 : Car) : Prop :=
  c2 = { c1 with
    _previousDistance := c2._previousDistance
    _lastMotorUpdate := c2._lastMotorUpdate }

/-! ## Sample inputs -/

/-- A freshly constructed car: `Car::Car` with the default pins
(`DEFAULT_SERVO_PIN = 8`, `DEFAULT_ESC_PIN = 9`) sets `cruiseControl = false`;
the other members are those of a zero-initialised object. -/
def newCar : Car :=
  { _steeringWheelPin := 8, _escPin := 9, _pidLoopInterval := 0, _angle := 0, _speed := 0,
    _Kp := 0, _Ki := 0, _Kd := 0, _encoder := ⟨0, 0⟩, cruiseControl := false,
    _lastMotorUpdate := 0, _previousDistance := 0, _previousControlledSpeed := 0,
    _previousError := 0, _integratedError := 0, _lastMeasuredSpeed := Velocity.fin 0 }

/-- The system before `begin()`: nothing written, nothing read. -/
def newSys : Sys := { car := newCar, trace := [], reads := 0 }

/-- A sample odometer. -/
def sampleOdometer : Odometer := ⟨2, 0⟩

/-- A sample environment: the clock advances 100 ms per read, the odometer
gains 50 pulses per read, and the encoder reports speed 0. -/
def sampleEnv : Env :=
  { millis := fun k => 100 * (k + 1), getDistance := fun _ k => 50 * k, getSpeed := fun _ _ => 0 }

/-- Direct mode, driving forward: the state after `begin(); setSpeed(1.0)`. -/
def drivingForward : Sys :=
  { car := { newCar with _angle := 90, _speed := 1 }
    trace := [Event.motorWrite 1500, Event.steeringWrite 90, Event.motorWrite 1560]
    reads := 0 }

/-- Direct mode, idle: the state after `begin()`. -/
def idleDirect : Sys :=
  { car := { newCar with _angle := 90 }
    trace := [Event.motorWrite 1500, Event.steeringWrite 90]
    reads := 0 }

/-- Cruise mode, target 1 m/s: the state after `begin()`,
`enableCruiseControl(sampleOdometer)` with the default gains, `setSpeed(1.0)`. -/
def cruisingForward : Sys :=
  { car := { newCar with
      _angle := 90, _speed := 1, _pidLoopInterval := 40, _Kp := 5, _Ki := 0, _Kd := 10
      _encoder := sampleOdometer, cruiseControl := true, _previousControlledSpeed := 1500 }
    trace := [Event.motorWrite 1500, Event.steeringWrite 90]
    reads := 1 }

/-- Cruise mode after one controller tick: the state after `begin()`,
`enableCruiseControl(sampleOdometer)`, `setSpeed(2.0)`, `updateMotors()` in
`sampleEnv` (measured speed 0, so the error of the tick is 2). -/
def afterTick : Sys :=
  { car := { newCar with
      _angle := 90, _speed := 2, _pidLoopInterval := 40, _Kp := 5, _Ki := 0, _Kd := 10
      _encoder := sampleOdometer, cruiseControl := true, _lastMotorUpdate := 600
      _previousDistance := 150, _previousControlledSpeed := 1510, _previousError := 2
      _integratedError := 80, _lastMeasuredSpeed := Velocity.fin (3 / 10) }
    trace := [Event.motorWrite 1500, Event.steeringWrite 90, Event.motorWrite 1510]
    reads := 6 }

/-- Cruise mode with a target inside the idle band while the motor still runs
at 1560: the state after `begin()`, `setSpeed(1.0)`,
`enableCruiseControl(sampleOdometer)`, `setSpeed(0.0005)`. -/
def creeping : Sys :=
  { car := { newCar with
      _angle := 90, _speed := 1 / 2000, _pidLoopInterval := 40, _Kp := 5, _Ki := 0, _Kd := 10
      _encoder := sampleOdometer, cruiseControl := true, _previousControlledSpeed := 1500 }
    trace := [Event.motorWrite 1500, Event.steeringWrite 90, Event.motorWrite 1560]
    reads := 1 }

/-- Run a sequence of public operations, each with call budget `fuel`. -/
def runOps (fuel : Nat) (w : Env) : List Op → Sys → Sys
  | [], s => s
  | op :: ops, s => runOps fuel w ops (exec fuel w op s).sys

/-! ## Vocabulary of the controller statements -/

/-- The integrated error after a controller call, written with finite
arithmetic only: the error `target - actual` rounded to binary32, times the
loop interval, rounded, added to the integrated error held before (converted
to `float`), rounded, and converted to `int`. -/
def pidIntegrator (target actual : ℚ) (c : Car) : Int :=
  floatToInt (f32 (f32 (c._integratedError : ℚ)
    + f32 (f32 (target - actual) * (c._pidLoopInterval : ℚ))))

/-- The correction of a controller call, written with finite arithmetic only:
`Kp * error + Ki * I + Kd * (error - previousError) / loopInterval` evaluated
from left to right, every operation rounded to binary32, `I` being the
integrated error after the call and `previousError` the one held before. -/
def pidCorrection (target actual : ℚ) (c : Car) : ℚ :=
  f32 (f32 (f32 (c._Kp * f32 (target - actual))
        + f32 (c._Ki * f32 (pidIntegrator target actual c : ℚ)))
    + f32 (f32 (c._Kd * f32 (f32 (target - actual) - f32 (c._previousError : ℚ)))
        / (c._pidLoopInterval : ℚ)))

/-- The first ground-speed sample of `Car::stop` (`Car.cpp`, lines 104–107): the
value `velocity` holds when the brake loop is reached. -/
def brakeSample (w : Env) (s : Sys) : Velocity :=
  (getGroundSpeed w { (readMillis w s).2 with car := { (readMillis w s).2.car with
    _lastMotorUpdate := (readMillis w s).1 } }).1

/-- The guard of `Car::updateMotors` on the clock (`Car.cpp`, line 61):
`millis() > _lastMotorUpdate + _pidLoopInterval`, in `unsigned long`
arithmetic, for the reading `millis()` gives at the next environment read. -/
def intervalElapsed (w : Env) (s : Sys) : Prop :=
  w.millis s.reads % ULONG > (s.car._lastMotorUpdate + s.car._pidLoopInterval) % ULONG

instance (w : Env) (s : Sys) : Decidable (intervalElapsed w s) := by
  unfold intervalElapsed
  infer_instance

/-- Cruise mode with gains and interval chosen by the caller: the state after
`begin()` and `enableCruiseControl(sampleOdometer, 7, 1, 3, 25)`, then
`setSpeed(1.0)`. -/
def tunedCruise : Sys :=
  { car := { newCar with
      _angle := 90, _speed := 1, _pidLoopInterval := 25, _Kp := 7, _Ki := 1, _Kd := 3
      _encoder := sampleOdometer, cruiseControl := true, _previousControlledSpeed := 1500 }
    trace := [Event.motorWrite 1500, Event.steeringWrite 90]
    reads := 1 }

/-- Cruise mode, idle: the state after `begin()` and
`enableCruiseControl(sampleOdometer)` with the default gains. -/
def cruiseIdle : Sys :=
  { car := { newCar with
      _angle := 90, _pidLoopInterval := 40, _Kp := 5, _Ki := 0, _Kd := 10
      _encoder := sampleOdometer, cruiseControl := true, _previousControlledSpeed := 1500 }
    trace := [Event.motorWrite 1500, Event.steeringWrite 90]
    reads := 1 }

/-- The raw actuation `setSpeed(t)` writes in direct mode (`Car.cpp`, lines 55,
56 and 93): the target clamped to the direct-mode bounds, converted by
`speedToFreq`, clamped to the raw bounds by `setRawSpeed`. -/
def directRaw (t : ℚ) : Int :=
  constrain (speedToFreq (constrain t MAX_BACK_SPEED MAX_FRONT_SPEED))
    MAX_BACK_RAW_SPEED MAX_FRONT_RAW_SPEED

/-- The `float` value that `speedToFreq` converts to `int`, for a target `c` on
the clamped range: `c * 60 + 1500` (forward, `c > 0`) or `c * 200 + 1500`
(otherwise), the product and the sum each rounded to binary32. -/
def directSum (c : ℚ) : ℚ :=
  if c > 0 then f32 (f32 (c * 60) + 1500) else f32 (f32 (c * 200) + 1500)

/-- Cruise mode with a loop interval of 0: the state after `begin()`,
`enableCruiseControl(sampleOdometer, 5, 0, 10, 0)`, `setSpeed(1.0)`. -/
def zeroInterval : Sys :=
  { cruisingForward with car := { cruisingForward.car with _pidLoopInterval := 0 } }

/-- The elapsed time `dT` that `getGroundSpeed()` divides by when it is called
in state `s` (`Car.cpp`, line 87): the clock is read one environment read after
the odometer. -/
def sampleElapsed (w : Env) (s : Sys) : Nat :=
  subULong (w.millis (s.reads + 1) % ULONG) s.car._lastMotorUpdate

/-- The elapsed time the first `getGroundSpeed()` of `Car::stop` divides by
(`Car.cpp`, lines 104 and 107), `stop` being entered in state `s`. -/
def brakeSampleElapsed (w : Env) (s : Sys) : Nat :=
  sampleElapsed w { (readMillis w s).2 with car := { (readMillis w s).2.car with
    _lastMotorUpdate := (readMillis w s).1 } }

/-- The state in which `Car::updateMotors` calls `getGroundSpeed()` (`Car.cpp`,
lines 63–67 done, line 68 about to run), the controller step being entered in
state `s`. -/
def controlWritten (w : Env) (s : Sys) : Sys :=
  let (m, s2) := readSpeed w s
  let measuredSpeed := if s2.car._speed < 0 then m * (-1) else m
  let (controlledSpeed, c3) :=
    motorPIDcontrol s2.car._previousControlledSpeed s2.car._speed measuredSpeed s2.car
  let s3 := setRawSpeed controlledSpeed { s2 with car := c3 }
  { s3 with car := { s3.car with _previousControlledSpeed := controlledSpeed } }

/-- A velocity that is a number: neither infinite nor NaN. -/
def Velocity.isFinite : Velocity → Bool
  | .fin _ => true
  | _ => false

/-- An environment whose clock stands still at 1000 ms over the reads of a
call (the reads fall within one millisecond) while the odometer gains 50
pulses per read. -/
def sameMillisecond : Env :=
  { millis := fun _ => 1000, getDistance := fun _ k => 50 * k, getSpeed := fun _ _ => 0 }

/-! ## Binary32 rounding

`log2Floor` is the binary exponent (`log2Floor_eq`), so `f32 x` is the multiple
of the spacing `2 ^ ulpExp x` nearest to `x`.  Rounding is monotone
(`f32_mono`), loses at most half a spacing (`f32_abs_sub_le`), and fixes
every number with at most 24 significant bits (`f32_of_grid`), in particular
every integer of magnitude at most `2 ^ 24` (`f32_intCast_le`) and every value
it delivers (`f32_f32`). -/

theorem roundEven_floor_le (y : ℚ) : ⌊y⌋ ≤ roundEven y := by
  unfold roundEven
  split_ifs <;> omega

theorem roundEven_le_floor_succ (y : ℚ) : roundEven y ≤ ⌊y⌋ + 1 := by
  unfold roundEven
  split_ifs <;> omega

theorem roundEven_intCast (z : Int) : roundEven (z : ℚ) = z := by
  unfold roundEven
  simp

theorem roundEven_abs_sub_le (y : ℚ) : |(roundEven y : ℚ) - y| ≤ 1 / 2 := by
  have hf := Int.floor_add_fract y
  have h0 := Int.fract_nonneg y
  have h1 := Int.fract_lt_one y
  unfold roundEven
  rw [abs_le]
  split_ifs with ha hb hc
  · constructor <;> linarith
  · push_cast
    constructor <;> linarith
  · have : 2 * Int.fract y = 1 := le_antisymm (not_lt.mp hb) (not_lt.mp ha)
    constructor <;> linarith
  · have : 2 * Int.fract y = 1 := le_antisymm (not_lt.mp hb) (not_lt.mp ha)
    push_cast
    constructor <;> linarith

/-- Rounding to the nearest integer is monotone. -/
theorem roundEven_mono (a b : ℚ) (h : a ≤ b) : roundEven a ≤ roundEven b := by
  have hfl : ⌊a⌋ ≤ ⌊b⌋ := Int.floor_mono h
  rcases lt_or_eq_of_le hfl with hlt | heq
  · have h1 := roundEven_le_floor_succ a
    have h2 := roundEven_floor_le b
    omega
  · have hfr : Int.fract a ≤ Int.fract b := by
      have ha := Int.floor_add_fract a
      have hb := Int.floor_add_fract b
      have : ((⌊a⌋ : Int) : ℚ) = ((⌊b⌋ : Int) : ℚ) := by rw [heq]
      linarith
    unfold roundEven
    rw [heq]
    split_ifs <;> first | omega | (exfalso; linarith)


theorem two_zpow_pos (k : ℤ) : (0 : ℚ) < 2 ^ k := by positivity

theorem two_zpow_int (k : ℤ) (h : 0 ≤ k) : ∃ z : Int, (2 : ℚ) ^ k = (z : ℚ) := by
  obtain ⟨n, rfl⟩ := Int.eq_ofNat_of_zero_le h
  refine ⟨2 ^ n, ?_⟩
  rw [zpow_natCast]
  push_cast
  rfl

theorem two_zpow_le (m n : ℤ) (h : m ≤ n) : (2 : ℚ) ^ m ≤ 2 ^ n :=
  zpow_le_zpow_right₀ (by norm_num) h

theorem two_zpow_log_le_abs (x : ℚ) (hx : x ≠ 0) : (2 : ℚ) ^ Int.log 2 |x| ≤ |x| := by
  have h := Int.zpow_log_le_self (b := 2) (r := |x|) (by norm_num) (abs_pos.mpr hx)
  simpa using h

theorem log_lt_of_abs_lt (x : ℚ) (k : ℤ) (hx : x ≠ 0) (h : |x| < 2 ^ k) :
    Int.log 2 |x| < k := by
  have h1 := (Int.lt_zpow_iff_log_lt (b := 2) (by norm_num) (x := k) (abs_pos.mpr hx)).mp
  apply h1
  simpa using h

theorem abs_lt_of_log_lt (x : ℚ) (k : ℤ) (hx : x ≠ 0) (h : Int.log 2 |x| < k) :
    |x| < 2 ^ k := by
  have h1 := (Int.lt_zpow_iff_log_lt (b := 2) (by norm_num) (x := k) (abs_pos.mpr hx)).mpr h
  simpa using h1

theorem le_log_of_le_abs (x : ℚ) (k : ℤ) (hx : x ≠ 0) (h : 2 ^ k ≤ |x|) :
    k ≤ Int.log 2 |x| := by
  have h1 := (Int.zpow_le_iff_le_log (b := 2) (by norm_num) (x := k) (abs_pos.mpr hx)).mp
  exact h1 (by simpa using h)

theorem log2Aux_eq (fuel n : Nat) (h : n ≤ fuel) : log2Aux fuel n = Nat.log 2 n := by
  induction fuel generalizing n with
  | zero =>
    have h0 : n = 0 := by omega
    subst h0
    simp [log2Aux]
  | succ f ih =>
    simp only [log2Aux]
    split_ifs with h2
    · rw [ih (n / 2) (by omega), Nat.log_of_one_lt_of_le (by norm_num) h2]
    · rw [Nat.log_of_lt (by omega)]

theorem natLog2_eq (n : Nat) : natLog2 n = Nat.log 2 n := log2Aux_eq n n le_rfl

theorem natLog2_le (n : Nat) (h : n ≠ 0) : ((2 : ℚ) ^ natLog2 n) ≤ (n : ℚ) := by
  rw [natLog2_eq]
  exact_mod_cast Nat.pow_log_le_self 2 h

theorem lt_natLog2_succ (n : Nat) : (n : ℚ) < (2 : ℚ) ^ (natLog2 n + 1) := by
  rw [natLog2_eq]
  exact_mod_cast Nat.lt_pow_succ_log_self (by norm_num : 1 < 2) n

theorem abs_eq_natAbs_div (x : ℚ) : |x| = (x.num.natAbs : ℚ) / (x.den : ℚ) := by
  have h1 : ((x.num.natAbs : ℕ) : ℚ) = |(x.num : ℚ)| := by
    rw [Nat.cast_natAbs, Int.cast_abs]
  rw [h1]
  conv_lhs => rw [← Rat.num_div_den x]
  rw [abs_div, abs_of_pos (by exact_mod_cast x.den_pos : (0 : ℚ) < (x.den : ℚ))]

/-- The exponent computed by `log2Floor` is the integer logarithm to base 2. -/
theorem log2Floor_eq (x : ℚ) : log2Floor x = Int.log 2 |x| := by
  unfold log2Floor
  by_cases hx : x = 0
  · simp [hx]
  rw [if_neg hx]
  have hp0 : x.num.natAbs ≠ 0 := Int.natAbs_ne_zero.mpr (Rat.num_ne_zero.mpr hx)
  have hq0 : x.den ≠ 0 := x.den_nz
  have hqpos : (0 : ℚ) < (x.den : ℚ) := by exact_mod_cast x.den_pos
  have habs := abs_eq_natAbs_div x
  have hp1 := natLog2_le _ hp0
  have hp2 := lt_natLog2_succ x.num.natAbs
  have hq1 := natLog2_le _ hq0
  have hq2 := lt_natLog2_succ x.den
  have h2 : (2 : ℚ) ≠ 0 := by norm_num
  have hA : (0 : ℚ) < 2 ^ natLog2 x.num.natAbs := by positivity
  have hB : (0 : ℚ) < 2 ^ natLog2 x.den := by positivity
  have hup : |x| < 2 ^ ((natLog2 x.num.natAbs : Int) - (natLog2 x.den : Int) + 1) := by
    rw [habs, div_lt_iff₀ hqpos]
    have he : (2 : ℚ) ^ ((natLog2 x.num.natAbs : Int) - (natLog2 x.den : Int) + 1)
        = 2 ^ (natLog2 x.num.natAbs + 1) / 2 ^ natLog2 x.den := by
      rw [zpow_add₀ h2, zpow_sub₀ h2, zpow_natCast, zpow_natCast, zpow_one, pow_succ]
      ring
    rw [he, div_mul_eq_mul_div, lt_div_iff₀ hB]
    calc (x.num.natAbs : ℚ) * 2 ^ natLog2 x.den
        < 2 ^ (natLog2 x.num.natAbs + 1) * 2 ^ natLog2 x.den :=
          mul_lt_mul_of_pos_right hp2 hB
      _ ≤ 2 ^ (natLog2 x.num.natAbs + 1) * (x.den : ℚ) :=
          mul_le_mul_of_nonneg_left hq1 (by positivity)
  have hlow : (2 : ℚ) ^ ((natLog2 x.num.natAbs : Int) - (natLog2 x.den : Int) - 1) ≤ |x| := by
    rw [habs, le_div_iff₀ hqpos]
    have he : (2 : ℚ) ^ ((natLog2 x.num.natAbs : Int) - (natLog2 x.den : Int) - 1)
        = 2 ^ natLog2 x.num.natAbs / 2 ^ (natLog2 x.den + 1) := by
      rw [zpow_sub₀ h2, zpow_sub₀ h2, zpow_natCast, zpow_natCast, zpow_one, pow_succ]
      field_simp
    rw [he, div_mul_eq_mul_div, div_le_iff₀ (by positivity)]
    calc (2 : ℚ) ^ natLog2 x.num.natAbs * (x.den : ℚ)
        ≤ 2 ^ natLog2 x.num.natAbs * 2 ^ (natLog2 x.den + 1) :=
          mul_le_mul_of_nonneg_left (le_of_lt hq2) (le_of_lt hA)
      _ ≤ (x.num.natAbs : ℚ) * 2 ^ (natLog2 x.den + 1) :=
          mul_le_mul_of_nonneg_right hp1 (by positivity)
  split_ifs with hc
  · have h3 := le_log_of_le_abs x _ hx hc
    have h4 := log_lt_of_abs_lt x _ hx hup
    omega
  · have hc1 : |x| < 2 ^ ((natLog2 x.num.natAbs : Int) - (natLog2 x.den : Int)) := not_le.mp hc
    have h3 := le_log_of_le_abs x _ hx hlow
    have h4 := log_lt_of_abs_lt x _ hx hc1
    omega

theorem ulpExp_eq (x : ℚ) : ulpExp x = max (Int.log 2 |x|) (-126) - 23 := by
  unfold ulpExp
  rw [log2Floor_eq]

theorem f32_zero : f32 0 = 0 := by
  unfold f32
  simp [roundEven]

theorem f32_eq (x : ℚ) : f32 x = (roundEven (x / 2 ^ ulpExp x) : ℚ) * 2 ^ ulpExp x := rfl

/-- Rounding error: at most half a unit in the last place. -/
theorem f32_abs_sub_le (x : ℚ) : |f32 x - x| ≤ 2 ^ ulpExp x / 2 := by
  have hq := two_zpow_pos (ulpExp x)
  have h := roundEven_abs_sub_le (x / 2 ^ ulpExp x)
  have he : f32 x - x =
      ((roundEven (x / 2 ^ ulpExp x) : ℚ) - x / 2 ^ ulpExp x) * 2 ^ ulpExp x := by
    rw [f32_eq]
    field_simp
  rw [he, abs_mul, abs_of_pos hq]
  nlinarith

/-- Rounding error for a value below `2 ^ (k + 1)` in magnitude. -/
theorem f32_abs_sub_le_of_lt (x : ℚ) (k : ℤ) (hk : -126 ≤ k) (h : |x| < 2 ^ (k + 1)) :
    |f32 x - x| ≤ 2 ^ (k - 24) := by
  by_cases hx : x = 0
  · rw [hx, f32_zero]
    simp
    positivity
  · have hlog := log_lt_of_abs_lt x (k + 1) hx h
    have hu : ulpExp x ≤ k - 23 := by
      rw [ulpExp_eq]
      have : max (Int.log 2 |x|) (-126) ≤ k := max_le (by omega) hk
      omega
    have h1 := f32_abs_sub_le x
    have h2 : (2 : ℚ) ^ ulpExp x / 2 = 2 ^ (ulpExp x - 1) := by
      rw [zpow_sub₀ (by norm_num : (2 : ℚ) ≠ 0)]
      simp
    rw [h2] at h1
    exact le_trans h1 (two_zpow_le _ _ (by omega))

/-- If `a ≤ z * 2 ^ u` for an integer `z`, the rounded value of `a` on the grid of
step `2 ^ u` is at most `z * 2 ^ u`. -/
theorem roundEven_scaled_le (a : ℚ) (u : ℤ) (z : Int) (h : a ≤ (z : ℚ) * 2 ^ u) :
    (roundEven (a / 2 ^ u) : ℚ) * 2 ^ u ≤ (z : ℚ) * 2 ^ u := by
  have hq := two_zpow_pos u
  have h1 : a / 2 ^ u ≤ (z : ℚ) := by
    rw [div_le_iff₀ hq]
    exact h
  have h2 := roundEven_mono _ _ h1
  rw [roundEven_intCast] at h2
  have h3 : (roundEven (a / 2 ^ u) : ℚ) ≤ (z : ℚ) := by exact_mod_cast h2
  exact mul_le_mul_of_nonneg_right h3 (le_of_lt hq)

theorem le_roundEven_scaled (a : ℚ) (u : ℤ) (z : Int) (h : (z : ℚ) * 2 ^ u ≤ a) :
    (z : ℚ) * 2 ^ u ≤ (roundEven (a / 2 ^ u) : ℚ) * 2 ^ u := by
  have hq := two_zpow_pos u
  have h1 : (z : ℚ) ≤ a / 2 ^ u := by
    rw [le_div_iff₀ hq]
    exact h
  have h2 := roundEven_mono _ _ h1
  rw [roundEven_intCast] at h2
  have h3 : (z : ℚ) ≤ (roundEven (a / 2 ^ u) : ℚ) := by exact_mod_cast h2
  exact mul_le_mul_of_nonneg_right h3 (le_of_lt hq)

/-- A power of two `2 ^ e` with `u ≤ e` lies on the grid of step `2 ^ u`. -/
theorem two_zpow_on_grid (e u : ℤ) (h : u ≤ e) : ∃ z : Int, (2 : ℚ) ^ e = (z : ℚ) * 2 ^ u := by
  obtain ⟨z, hz⟩ := two_zpow_int (e - u) (by omega)
  refine ⟨z, ?_⟩
  rw [← hz, ← zpow_add₀ (by norm_num : (2 : ℚ) ≠ 0)]
  congr 1
  omega

/-- Upper bound kept by rounding: a value at most `2 ^ e` rounds to at most `2 ^ e`,
when `2 ^ e` is on the value's grid. -/
theorem f32_le_two_zpow (a : ℚ) (e : ℤ) (hu : ulpExp a ≤ e) (h : a ≤ 2 ^ e) : f32 a ≤ 2 ^ e := by
  obtain ⟨z, hz⟩ := two_zpow_on_grid e (ulpExp a) hu
  rw [hz] at h ⊢
  exact roundEven_scaled_le a (ulpExp a) z h

theorem two_zpow_le_f32 (b : ℚ) (e : ℤ) (hu : ulpExp b ≤ e) (h : 2 ^ e ≤ b) : 2 ^ e ≤ f32 b := by
  obtain ⟨z, hz⟩ := two_zpow_on_grid e (ulpExp b) hu
  rw [hz] at h ⊢
  exact le_roundEven_scaled b (ulpExp b) z h

theorem f32_le_neg_two_zpow (a : ℚ) (e : ℤ) (hu : ulpExp a ≤ e) (h : a ≤ -2 ^ e) :
    f32 a ≤ -2 ^ e := by
  obtain ⟨z, hz⟩ := two_zpow_on_grid e (ulpExp a) hu
  have hz' : -(2 : ℚ) ^ e = ((-z : Int) : ℚ) * 2 ^ ulpExp a := by
    rw [hz]; push_cast; ring
  rw [hz'] at h ⊢
  exact roundEven_scaled_le a (ulpExp a) (-z) h

theorem neg_two_zpow_le_f32 (b : ℚ) (e : ℤ) (hu : ulpExp b ≤ e) (h : -2 ^ e ≤ b) :
    -2 ^ e ≤ f32 b := by
  obtain ⟨z, hz⟩ := two_zpow_on_grid e (ulpExp b) hu
  have hz' : -(2 : ℚ) ^ e = ((-z : Int) : ℚ) * 2 ^ ulpExp b := by
    rw [hz]; push_cast; ring
  rw [hz'] at h ⊢
  exact le_roundEven_scaled b (ulpExp b) (-z) h


theorem f32_nonneg (x : ℚ) (h : 0 ≤ x) : 0 ≤ f32 x := by
  have h1 := le_roundEven_scaled x (ulpExp x) 0 (by simpa using h)
  simpa [f32_eq] using h1

theorem f32_nonpos (x : ℚ) (h : x ≤ 0) : f32 x ≤ 0 := by
  have h1 := roundEven_scaled_le x (ulpExp x) 0 (by simpa using h)
  simpa [f32_eq] using h1

theorem ulpExp_of_ne_zero (x : ℚ) :
    ulpExp x = max (Int.log 2 |x|) (-126) - 23 := ulpExp_eq x

/-- Rounding to binary32 is monotone. -/
theorem f32_mono (a b : ℚ) (h : a ≤ b) : f32 a ≤ f32 b := by
  by_cases ha : a = 0
  · rw [ha, f32_zero]
    exact f32_nonneg b (by rw [ha] at h; exact h)
  by_cases hb : b = 0
  · rw [hb, f32_zero]
    exact f32_nonpos a (by rw [hb] at h; exact h)
  have hua := ulpExp_of_ne_zero a
  have hub := ulpExp_of_ne_zero b
  rcases lt_trichotomy (ulpExp a) (ulpExp b) with hlt | heq | hgt
  · have hl1 : Int.log 2 |a| < Int.log 2 |b| := by
      rcases max_cases (Int.log 2 |a|) (-126) with ⟨h1, _⟩ | ⟨h1, _⟩ <;>
      rcases max_cases (Int.log 2 |b|) (-126) with ⟨h2, _⟩ | ⟨h2, _⟩ <;> omega
    have hl2 : ulpExp b = Int.log 2 |b| - 23 := by
      rcases max_cases (Int.log 2 |a|) (-126) with ⟨h1, _⟩ | ⟨h1, _⟩ <;>
      rcases max_cases (Int.log 2 |b|) (-126) with ⟨h2, _⟩ | ⟨h2, _⟩ <;> omega
    have habs : |a| < 2 ^ Int.log 2 |b| := abs_lt_of_log_lt a _ ha hl1
    have hbabs : (2 : ℚ) ^ Int.log 2 |b| ≤ |b| := two_zpow_log_le_abs b hb
    have hbpos : 0 < b := by
      by_contra hneg
      have hb1 : b ≤ 0 := not_lt.mp hneg
      have ha1 : a ≤ 0 := le_trans h hb1
      have hae : |a| = -a := abs_of_nonpos ha1
      have hbe : |b| = -b := abs_of_nonpos hb1
      linarith
    have hbe : |b| = b := abs_of_pos hbpos
    have hb2 : (2 : ℚ) ^ Int.log 2 |b| ≤ b := by linarith
    have ha2 : a ≤ 2 ^ Int.log 2 |b| := le_trans (le_abs_self a) (le_of_lt habs)
    exact le_trans (f32_le_two_zpow a _ (by omega) ha2) (two_zpow_le_f32 b _ (by omega) hb2)
  · rw [f32_eq a, f32_eq b, heq]
    have hq := two_zpow_pos (ulpExp b)
    have h1 : a / 2 ^ ulpExp b ≤ b / 2 ^ ulpExp b := by
      exact div_le_div_of_nonneg_right h (le_of_lt hq)
    have h2 := roundEven_mono _ _ h1
    have h3 : (roundEven (a / 2 ^ ulpExp b) : ℚ) ≤ (roundEven (b / 2 ^ ulpExp b) : ℚ) := by
      exact_mod_cast h2
    exact mul_le_mul_of_nonneg_right h3 (le_of_lt hq)
  · have hl1 : Int.log 2 |b| < Int.log 2 |a| := by
      rcases max_cases (Int.log 2 |a|) (-126) with ⟨h1, _⟩ | ⟨h1, _⟩ <;>
      rcases max_cases (Int.log 2 |b|) (-126) with ⟨h2, _⟩ | ⟨h2, _⟩ <;> omega
    have hl2 : ulpExp a = Int.log 2 |a| - 23 := by
      rcases max_cases (Int.log 2 |a|) (-126) with ⟨h1, _⟩ | ⟨h1, _⟩ <;>
      rcases max_cases (Int.log 2 |b|) (-126) with ⟨h2, _⟩ | ⟨h2, _⟩ <;> omega
    have hbabs : |b| < 2 ^ Int.log 2 |a| := abs_lt_of_log_lt b _ hb hl1
    have haabs : (2 : ℚ) ^ Int.log 2 |a| ≤ |a| := two_zpow_log_le_abs a ha
    have haneg : a < 0 := by
      by_contra hpos
      have ha1 : 0 ≤ a := not_lt.mp hpos
      have hb1 : 0 ≤ b := le_trans ha1 h
      have hae : |a| = a := abs_of_nonneg ha1
      have hbe : |b| = b := abs_of_nonneg hb1
      linarith
    have hae : |a| = -a := abs_of_neg haneg
    have ha2 : a ≤ -2 ^ Int.log 2 |a| := by linarith
    have hb2 : -(2 : ℚ) ^ Int.log 2 |a| ≤ b := by
      have := neg_abs_le b
      linarith
    exact le_trans (f32_le_neg_two_zpow a _ (by omega) ha2)
      (neg_two_zpow_le_f32 b _ (by omega) hb2)

/-- A value `m * 2 ^ j` with fewer than 24 significant bits is a binary32 value. -/
theorem f32_of_grid (m : Int) (j : ℤ) (hm : |m| < 2 ^ 24) (hj : -149 ≤ j) :
    f32 ((m : ℚ) * 2 ^ j) = (m : ℚ) * 2 ^ j := by
  by_cases hm0 : m = 0
  · rw [hm0]
    simp [f32_zero]
  have hq := two_zpow_pos j
  have hx : (m : ℚ) * 2 ^ j ≠ 0 := by
    have : (m : ℚ) ≠ 0 := by exact_mod_cast hm0
    positivity
  have habs : |(m : ℚ) * 2 ^ j| < 2 ^ (24 + j) := by
    rw [abs_mul, abs_of_pos hq, zpow_add₀ (by norm_num : (2 : ℚ) ≠ 0)]
    have h1 : |(m : ℚ)| < 2 ^ (24 : ℤ) := by
      have h2 : ((|m| : Int) : ℚ) < ((2 ^ 24 : Int) : ℚ) := by exact_mod_cast hm
      rw [Int.cast_abs] at h2
      norm_num at h2 ⊢
      exact h2
    exact mul_lt_mul_of_pos_right h1 hq
  have hlog := log_lt_of_abs_lt _ _ hx habs
  have hu : ulpExp ((m : ℚ) * 2 ^ j) ≤ j := by
    rw [ulpExp_eq]
    have : max (Int.log 2 |(m : ℚ) * 2 ^ j|) (-126) ≤ 23 + j := max_le (by omega) (by omega)
    omega
  obtain ⟨z, hz⟩ := two_zpow_on_grid j (ulpExp ((m : ℚ) * 2 ^ j)) hu
  rw [f32_eq]
  have hy : ∀ u : ℤ, (2 : ℚ) ^ j = (z : ℚ) * 2 ^ u →
      (m : ℚ) * 2 ^ j / 2 ^ u = ((m * z : Int) : ℚ) := by
    intro u h
    have hne : (2 : ℚ) ^ u ≠ 0 := by positivity
    rw [h]
    push_cast
    field_simp
    ring
  rw [hy _ hz, roundEven_intCast]
  push_cast
  rw [mul_assoc, ← hz]

theorem f32_intCast (z : Int) (h : |z| < 2 ^ 24) : f32 (z : ℚ) = z := by
  have := f32_of_grid z 0 h (by norm_num)
  simpa using this

theorem ulpExp_le_of_abs_le (x : ℚ) (k : ℤ) (hx : x ≠ 0) (hk : -149 ≤ k)
    (h : |x| ≤ 2 ^ k) : ulpExp x ≤ k := by
  rw [ulpExp_eq]
  have hlt : |x| < 2 ^ (k + 1) :=
    lt_of_le_of_lt h (zpow_lt_zpow_right₀ (by norm_num) (by omega))
  have hlog := log_lt_of_abs_lt x _ hx hlt
  rcases max_cases (Int.log 2 |x|) (-126) with ⟨h1, _⟩ | ⟨h1, _⟩ <;> omega

/-- Rounding to binary32 does not cross a power of two. -/
theorem abs_f32_le (x : ℚ) (k : ℤ) (hk : -149 ≤ k) (h : |x| ≤ 2 ^ k) : |f32 x| ≤ 2 ^ k := by
  by_cases hx : x = 0
  · rw [hx, f32_zero, abs_zero]
    exact le_of_lt (two_zpow_pos k)
  have hu := ulpExp_le_of_abs_le x k hx hk h
  rw [abs_le] at h ⊢
  exact ⟨neg_two_zpow_le_f32 x k hu h.1, f32_le_two_zpow x k hu h.2⟩

theorem f32_intCast_le (z : Int) (h : |z| ≤ 16777216) : f32 (z : ℚ) = z := by
  by_cases h1 : |z| < 2 ^ 24
  · exact f32_intCast z h1
  · have hz : z = 16777216 ∨ z = -16777216 := by
      rw [abs_le] at h
      rw [abs_lt] at h1
      norm_num at h1
      by_cases hn : -16777216 < z
      · left
        have := h1 hn
        omega
      · right
        omega
    rcases hz with hz | hz
    · rw [hz]
      have := f32_of_grid 8388608 1 (by norm_num) (by norm_num)
      norm_num at this ⊢
      exact this
    · rw [hz]
      have := f32_of_grid (-8388608) 1 (by norm_num) (by norm_num)
      norm_num at this ⊢
      exact this

/-! ## Facts of the machine arithmetic -/

theorem wrapInt_bounds (z : Int) : INT_MIN ≤ wrapInt z ∧ wrapInt z ≤ INT_MAX := by
  unfold wrapInt INT_MIN INT_MAX
  omega

theorem toInt_mono (a b : ℚ) (h : a ≤ b) : toInt a ≤ toInt b := by
  unfold toInt
  split_ifs with ha hb hb
  · exact Int.floor_mono h
  · exact absurd (le_trans ha h) hb
  · have h1 : ⌈a⌉ ≤ 0 := Int.ceil_le.mpr (by push_cast; linarith)
    have h2 : 0 ≤ ⌊b⌋ := Int.le_floor.mpr (by push_cast; linarith)
    omega
  · exact Int.ceil_mono h

theorem toInt_intCast (z : Int) : toInt (z : ℚ) = z := by
  unfold toInt
  split_ifs
  · exact Int.floor_intCast z
  · exact Int.ceil_intCast z

/-- Inside the range of `int` the conversion is the truncation. -/
theorem floatToInt_of_mem (q : ℚ) (h1 : ((INT_MIN : Int) : ℚ) ≤ q)
    (h2 : q ≤ ((INT_MAX : Int) : ℚ)) : floatToInt q = toInt q := by
  unfold floatToInt
  have h3 := toInt_mono _ _ h1
  have h4 := toInt_mono _ _ h2
  rw [toInt_intCast] at h3 h4
  rw [if_pos ⟨h3, h4⟩]

theorem floatToInt_bounds (q : ℚ) : INT_MIN ≤ floatToInt q ∧ floatToInt q ≤ INT_MAX := by
  unfold floatToInt
  split_ifs with h
  · exact h
  · decide

theorem two_zpow_le_FLT_MAX (k : ℤ) (hk : k ≤ 127) : (2 : ℚ) ^ k ≤ FLT_MAX := by
  have h1 := two_zpow_le k 127 hk
  have h2 : (2 : ℚ) ^ (127 : ℤ) ≤ FLT_MAX := by
    norm_num [FLT_MAX]
  exact le_trans h1 h2

/-- A result of magnitude at most `2 ^ k`, `k ≤ 127`, does not overflow. -/
theorem ofRat_of_abs_le (x : ℚ) (k : ℤ) (hk1 : -149 ≤ k) (hk2 : k ≤ 127) (h : |x| ≤ 2 ^ k) :
    Velocity.ofRat x = .fin (f32 x) := by
  have h1 := abs_f32_le x k hk1 h
  have h2 := two_zpow_le_FLT_MAX k hk2
  rw [abs_le] at h1
  unfold Velocity.ofRat
  rw [if_neg (by linarith), if_neg (by linarith)]

theorem ofInt_of_abs_le (z : Int) (h : |z| ≤ 16777216) : Velocity.ofInt z = .fin z := by
  unfold Velocity.ofInt
  have h1 : |(z : ℚ)| ≤ 2 ^ (24 : ℤ) := by
    have h2 : ((|z| : Int) : ℚ) ≤ ((16777216 : Int) : ℚ) := by exact_mod_cast h
    rw [Int.cast_abs] at h2
    norm_num at h2 ⊢
    exact h2
  rw [ofRat_of_abs_le _ 24 (by norm_num) (by norm_num) h1, f32_intCast_le z h]

theorem f32_bounds (x a b : ℚ) (ha : f32 a = a) (hb : f32 b = b) (h1 : a ≤ x) (h2 : x ≤ b) :
    a ≤ f32 x ∧ f32 x ≤ b := by
  have h3 := f32_mono a x h1
  have h4 := f32_mono x b h2
  rw [ha] at h3
  rw [hb] at h4
  exact ⟨h3, h4⟩

theorem toInt_bounds_of_mem (x : ℚ) (a b : Int) (h1 : (a : ℚ) ≤ x) (h2 : x ≤ (b : ℚ)) :
    a ≤ toInt x ∧ toInt x ≤ b := by
  have h3 := toInt_mono _ _ h1
  have h4 := toInt_mono _ _ h2
  rw [toInt_intCast] at h3 h4
  exact ⟨h3, h4⟩

theorem f32_const_1500 : f32 1500 = 1500 := by decide!

theorem f32_const_1200 : f32 1200 = 1200 := by decide!

theorem f32_const_1620 : f32 1620 = 1620 := by decide!

theorem f32_const_1100 : f32 1100 = 1100 := by decide!

theorem f32_const_120 : f32 120 = 120 := by decide!

theorem f32_const_neg_300 : f32 (-300) = -300 := by decide!

theorem f32_const_neg_400 : f32 (-400) = -400 := by decide!

/-- The `float` expression `c * k + 1500` of `speedToFreq`, converted to `int`,
on the clamped range: neither operation overflows and the conversion is the
truncation of the rounded sum. -/
theorem linear_toInt (c : ℚ) (k : Int) (hk : |k| ≤ 200) (h1 : -2 ≤ c) (h2 : c ≤ 2) :
    (Velocity.add (Velocity.mul (.fin c) (.ofInt k)) (.ofInt 1500)).toInt
      = toInt (f32 (f32 (c * (k : ℚ)) + 1500)) := by
  have hkq : |(k : ℚ)| ≤ 200 := by
    have h3 : ((|k| : Int) : ℚ) ≤ ((200 : Int) : ℚ) := by exact_mod_cast hk
    rw [Int.cast_abs] at h3
    norm_num at h3 ⊢
    exact h3
  have hc : |c| ≤ 2 := abs_le.mpr ⟨h1, h2⟩
  have hp : |c * (k : ℚ)| ≤ 2 ^ (9 : ℤ) := by
    rw [abs_mul]
    have := mul_le_mul hc hkq (abs_nonneg _) (by norm_num : (0 : ℚ) ≤ 2)
    norm_num at this ⊢
    linarith
  have hp2 := abs_f32_le _ 9 (by norm_num) hp
  have hs : |f32 (c * (k : ℚ)) + 1500| ≤ 2 ^ (11 : ℤ) := by
    rw [abs_le] at hp2 ⊢
    norm_num at hp2 ⊢
    constructor <;> linarith
  have hs2 := abs_f32_le _ 11 (by norm_num) hs
  rw [ofInt_of_abs_le k (le_trans hk (by norm_num)),
    ofInt_of_abs_le 1500 (by norm_num)]
  show (Velocity.add (Velocity.ofRat (c * (k : ℚ))) (.fin ((1500 : Int) : ℚ))).toInt = _
  rw [ofRat_of_abs_le _ 9 (by norm_num) (by norm_num) hp]
  show (Velocity.ofRat (f32 (c * (k : ℚ)) + ((1500 : Int) : ℚ))).toInt = _
  have h1500 : (((1500 : Int)) : ℚ) = 1500 := by norm_num
  rw [h1500, ofRat_of_abs_le _ 11 (by norm_num) (by norm_num) hs]
  show floatToInt _ = _
  rw [abs_le] at hs2
  norm_num at hs2
  apply floatToInt_of_mem
  · norm_num [INT_MIN]
    linarith
  · norm_num [INT_MAX]
    linarith

/-! ## Basic facts -/

theorem constrain_bounds {α : Type} [LinearOrder α] (amt low high : α) (h : low ≤ high) :
    low ≤ constrain amt low high ∧ constrain amt low high ≤ high := by
  unfold constrain
  split_ifs with h1 h2
  · exact ⟨le_refl _, h⟩
  · exact ⟨h, le_refl _⟩
  · exact ⟨not_lt.mp h1, not_lt.mp h2⟩

theorem constrain_of_mem {α : Type} [LinearOrder α] (amt low high : α)
    (h1 : low ≤ amt) (h2 : amt ≤ high) : constrain amt low high = amt := by
  unfold constrain
  rw [if_neg (not_lt.mpr h1), if_neg (not_lt.mpr h2)]

theorem constrain_of_lt {α : Type} [LinearOrder α] (amt low high : α) (h : amt < low) :
    constrain amt low high = low := by
  unfold constrain
  rw [if_pos h]

theorem Continues.cont_refl (s : Sys) : Continues s s :=
  ⟨[], by simp, by intro v hv; simp at hv⟩

theorem Continues.of_trace_eq {s1 s2 : Sys} (h : s2.trace = s1.trace) : Continues s1 s2 :=
  ⟨[], by simp [h], by intro v hv; simp at hv⟩

theorem Continues.cont_trans {s1 s2 s3 : Sys} (h12 : Continues s1 s2) (h23 : Continues s2 s3) :
    Continues s1 s3 := by
  obtain ⟨n1, e1, b1⟩ := h12
  obtain ⟨n2, e2, b2⟩ := h23
  refine ⟨n1 ++ n2, by rw [e2, e1, List.append_assoc], ?_⟩
  intro v hv
  rcases List.mem_append.mp hv with h | h
  · exact b1 v h
  · exact b2 v h

theorem setRawSpeed_continues (rawSpeed : Int) (s : Sys) :
    Continues s (setRawSpeed rawSpeed s) := by
  refine ⟨[Event.motorWrite (constrain rawSpeed MAX_BACK_RAW_SPEED MAX_FRONT_RAW_SPEED)],
    rfl, ?_⟩
  intro v hv
  have hv1 : v = constrain rawSpeed MAX_BACK_RAW_SPEED MAX_FRONT_RAW_SPEED := by
    simpa using hv
  rw [hv1]
  exact constrain_bounds _ _ _ (by decide)

theorem getGroundSpeed_trace (w : Env) (s : Sys) :
    (getGroundSpeed w s).2.trace = s.trace := rfl

theorem getGroundSpeed_car (w : Env) (s : Sys) :
    (getGroundSpeed w s).2.car =
      { s.car with _previousDistance := w.getDistance s.car._encoder s.reads % ULONG } := rfl

theorem brakeLoop_continues (w : Env) (attempts : Nat) (velocity : Velocity) (s : Sys) :
    Continues s (brakeLoop w attempts velocity s) := by
  induction attempts generalizing velocity s with
  | zero => exact Continues.cont_refl s
  | succ n ih =>
    unfold brakeLoop
    split_ifs with hv hs
    · exact (setRawSpeed_continues _ s).cont_trans
        ((Continues.of_trace_eq (getGroundSpeed_trace w _)).cont_trans (ih _ _))
    · exact (setRawSpeed_continues _ s).cont_trans
        ((Continues.of_trace_eq (getGroundSpeed_trace w _)).cont_trans (ih _ _))
    · exact Continues.cont_refl s

theorem stopBrake_continues (w : Env) (s : Sys) : Continues s (stopBrake w s) := by
  unfold stopBrake
  split_ifs with h
  · refine Continues.cont_trans ?_ (setRawSpeed_continues _ _)
    refine Continues.cont_trans ?_ (brakeLoop_continues w 1 _ _)
    exact Continues.of_trace_eq rfl
  · exact Continues.cont_refl s

theorem enableCruiseControl_trace (w : Env) (encoder : Odometer) (Kp Ki Kd : ℚ)
    (n : Nat) (s : Sys) :
    (enableCruiseControl w encoder Kp Ki Kd n s).trace = s.trace := rfl

theorem setSpeed_stop_continues (fuel : Nat) (w : Env) :
    (∀ t s, Continues s (setSpeed fuel w t s).sys) ∧
    (∀ s, Continues s (stop fuel w s).sys) := by
  induction fuel with
  | zero =>
    refine ⟨fun t s => ?_, fun s => ?_⟩
    · simp only [setSpeed, Outcome.sys]; exact Continues.cont_refl s
    · simp only [stop, Outcome.sys]; exact Continues.cont_refl s
  | succ n ih =>
    obtain ⟨ihSet, ihStop⟩ := ih
    refine ⟨fun t s => ?_, fun s => ?_⟩
    · simp only [setSpeed]
      split_ifs with hc hb hb
      · have h := ihStop s
        cases hr : stop n w s with
        | returned s1 =>
          rw [hr] at h
          exact h.cont_trans (Continues.of_trace_eq rfl)
        | running s1 =>
          rw [hr] at h
          exact h
      · exact Continues.of_trace_eq rfl
      · have h := ihStop s
        cases hr : stop n w s with
        | returned s1 =>
          rw [hr] at h
          exact h.cont_trans ((Continues.of_trace_eq rfl).cont_trans (setRawSpeed_continues _ _))
        | running s1 =>
          rw [hr] at h
          exact h
      · exact (Continues.of_trace_eq rfl).cont_trans (setRawSpeed_continues _ _)
    · simp only [stop]
      have h0 : Continues s { s with trace := s.trace ++ [Event.brake] } :=
        ⟨[Event.brake], rfl, by intro v hv; simp at hv⟩
      have h1 := h0.cont_trans (stopBrake_continues w _)
      split_ifs with hc
      · exact h1.cont_trans ((setRawSpeed_continues IDLE_RAW_SPEED _).cont_trans
          (Continues.of_trace_eq rfl))
      · exact h1.cont_trans (ihSet _ _)

theorem controlStep_trace (w : Env) (s : Sys) :
    ∃ v : Int, (controlStep w s).trace = (setRawSpeed v s).trace :=
  ⟨_, rfl⟩

theorem updateMotors_trace (w : Env) (s : Sys) :
    (updateMotors w s).trace = s.trace ∨
      ∃ v : Int, (updateMotors w s).trace = (setRawSpeed v s).trace := by
  unfold updateMotors
  by_cases hc : s.car.cruiseControl = true
  · rw [if_pos hc]
    simp only [readMillis]
    split_ifs with ht hs
    · right
      obtain ⟨v, hv⟩ := controlStep_trace w { s with reads := s.reads + 1 }
      exact ⟨v, hv⟩
    · left
      rfl
    · left
      rfl
  · rw [if_neg hc]
    left
    rfl

theorem updateMotors_continues (w : Env) (s : Sys) : Continues s (updateMotors w s) := by
  rcases updateMotors_trace w s with h | ⟨v, h⟩
  · exact Continues.of_trace_eq h
  · exact (setRawSpeed_continues v s).cont_trans (Continues.of_trace_eq h)

/-! ## The brake block leaves the mode and the stored speed alone -/

theorem SameButSamples.same_refl (c : Car) : SameButSamples c c := rfl

theorem SameButSamples.same_trans {c1 c2 c3 : Car} (h12 : SameButSamples c1 c2)
    (h23 : SameButSamples c2 c3) : SameButSamples c1 c3 := by
  unfold SameButSamples at *
  rw [h23, h12]

theorem SameButSamples.speed {c1 c2 : Car} (h : SameButSamples c1 c2) :
    c2._speed = c1._speed := by
  unfold SameButSamples at h
  rw [h]

theorem SameButSamples.cruise {c1 c2 : Car} (h : SameButSamples c1 c2) :
    c2.cruiseControl = c1.cruiseControl := by
  unfold SameButSamples at h
  rw [h]

theorem SameButSamples.encoder {c1 c2 : Car} (h : SameButSamples c1 c2) :
    c2._encoder = c1._encoder := by
  unfold SameButSamples at h
  rw [h]

theorem brakeLoop_same (w : Env) (attempts : Nat) (velocity : Velocity) (s : Sys) :
    SameButSamples s.car (brakeLoop w attempts velocity s).car := by
  induction attempts generalizing velocity s with
  | zero => exact SameButSamples.same_refl _
  | succ n ih =>
    unfold brakeLoop
    split_ifs with hv hs
    · exact SameButSamples.same_trans (by unfold SameButSamples; rfl) (ih _ _)
    · exact SameButSamples.same_trans (by unfold SameButSamples; rfl) (ih _ _)
    · exact SameButSamples.same_refl _

theorem stopBrake_same (w : Env) (s : Sys) : SameButSamples s.car (stopBrake w s).car := by
  unfold stopBrake
  split_ifs with h
  · have h1 := brakeLoop_same w 1
      (getGroundSpeed w { (readMillis w s).2 with car := { (readMillis w s).2.car with
        _lastMotorUpdate := (readMillis w s).1 } }).1
      (getGroundSpeed w { (readMillis w s).2 with car := { (readMillis w s).2.car with
        _lastMotorUpdate := (readMillis w s).1 } }).2
    exact SameButSamples.same_trans (by unfold SameButSamples; rfl) h1
  · exact SameButSamples.same_refl _

theorem getGroundSpeed_reads (w : Env) (s : Sys) :
    (getGroundSpeed w s).2.reads = s.reads + 2 := rfl

theorem brakeLoop_reads_le (w : Env) (attempts : Nat) (velocity : Velocity) (s : Sys) :
    s.reads ≤ (brakeLoop w attempts velocity s).reads := by
  induction attempts generalizing velocity s with
  | zero => exact le_refl _
  | succ n ih =>
    unfold brakeLoop
    split_ifs with hv hs
    · refine le_trans ?_ (ih _ _)
      show s.reads ≤ s.reads + 1 + 1
      omega
    · refine le_trans ?_ (ih _ _)
      show s.reads ≤ s.reads + 1 + 1
      omega
    · exact le_refl _

theorem stopBrake_reads_le (w : Env) (s : Sys) : s.reads ≤ (stopBrake w s).reads := by
  unfold stopBrake
  split_ifs with h
  · have h1 := brakeLoop_reads_le w 1
      (getGroundSpeed w { (readMillis w s).2 with car := { (readMillis w s).2.car with
        _lastMotorUpdate := (readMillis w s).1 } }).1
      (getGroundSpeed w { (readMillis w s).2 with car := { (readMillis w s).2.car with
        _lastMotorUpdate := (readMillis w s).1 } }).2
    rw [getGroundSpeed_reads] at h1
    have h2 : s.reads ≤ s.reads + 1 + 2 := by omega
    exact le_trans h2 h1
  · exact le_refl _

/-- When the stored speed is inside the idle band the brake block is skipped. -/
theorem stopBrake_of_idle (w : Env) (s : Sys) (h1 : -(1 / 1000) ≤ s.car._speed)
    (h2 : s.car._speed ≤ 1 / 1000) : stopBrake w s = s := by
  unfold stopBrake
  rw [if_neg]
  intro h
  rcases h with h | h
  · exact absurd h2 (not_le.mpr h)
  · exact absurd h1 (not_le.mpr h)

/-! ## Direct mode: `stop` and `setSpeed(0)` call each other without end -/

/-- In direct mode with a nonzero stored speed, `Car::stop` calls
`setSpeed(IDLE_SPEED)`, which finds the stored speed still nonzero and calls
`stop` again: whatever the call budget, neither call comes back, and the
stored speed is never changed. -/
theorem direct_moving_never_returns (w : Env) (fuel : Nat) :
    ∀ s : Sys, s.car.cruiseControl = false → s.car._speed ≠ 0 →
      (∃ s1, stop fuel w s = .running s1 ∧ s1.car._speed = s.car._speed) ∧
      (∃ s1, setSpeed fuel w IDLE_SPEED s = .running s1 ∧ s1.car._speed = s.car._speed) := by
  induction fuel with
  | zero =>
    intro s _ _
    exact ⟨⟨s, by simp only [stop], rfl⟩, ⟨s, by simp only [setSpeed], rfl⟩⟩
  | succ n ih =>
    intro s hc hs
    constructor
    · have hsame := stopBrake_same w { s with trace := s.trace ++ [Event.brake] }
      have hc1 : (stopBrake w { s with trace := s.trace ++ [Event.brake] }).car.cruiseControl
          = false := by rw [hsame.cruise]; exact hc
      have hs1 : (stopBrake w { s with trace := s.trace ++ [Event.brake] }).car._speed
          = s.car._speed := hsame.speed
      obtain ⟨s1, h1, h2⟩ := (ih _ hc1 (by rw [hs1]; exact hs)).2
      refine ⟨s1, ?_, by rw [h2, hs1]⟩
      simp only [stop, hc1]
      exact h1
    · obtain ⟨s1, h1, h2⟩ := (ih s hc hs).1
      refine ⟨s1, ?_, h2⟩
      have hcond : s.car._speed ≠ IDLE_SPEED ∧
          (IDLE_SPEED < 1 / 1000 ∧ IDLE_SPEED > -(1 / 1000)) := by
        refine ⟨hs, ?_, ?_⟩ <;> norm_num [IDLE_SPEED]
      simp only [setSpeed, hc, if_pos hcond, h1, Outcome.andThen]
      simp

/-! ## Direct mode without braking -/

/-- In direct mode, when the brake condition of `setSpeed` does not fire, the
call comes back after one write: the clamped target is stored and its raw
value is written through `setRawSpeed`. -/
theorem setSpeed_direct_no_brake (fuel : Nat) (w : Env) (t : ℚ) (s : Sys)
    (hc : s.car.cruiseControl = false)
    (hb : ¬ (s.car._speed ≠ IDLE_SPEED ∧ (t < 1 / 1000 ∧ t > -(1 / 1000)))) :
    setSpeed (fuel + 1) w t s = .returned
      { s with
        car := { s.car with _speed := constrain t MAX_BACK_SPEED MAX_FRONT_SPEED }
        trace := s.trace ++ [Event.motorWrite
          (constrain (speedToFreq (constrain t MAX_BACK_SPEED MAX_FRONT_SPEED))
            MAX_BACK_RAW_SPEED MAX_FRONT_RAW_SPEED)] } := by
  simp only [setSpeed, hc, if_neg hb, Outcome.andThen]
  rfl

/-- On the clamped range a forward target is converted as the truncation of
the rounded `c * 60 + 1500`. -/
theorem speedToFreq_pos (c : ℚ) (h1 : 0 < c) (h2 : c ≤ 2) :
    speedToFreq c = toInt (f32 (f32 (c * 60) + 1500)) := by
  unfold speedToFreq IDLE_RAW_SPEED
  rw [if_pos h1]
  have h := linear_toInt c 60 (by norm_num) (by linarith) h2
  norm_num at h ⊢
  exact h

/-- On the clamped range a backward or zero target is converted as the
truncation of the rounded `c * 200 + 1500`. -/
theorem speedToFreq_nonpos (c : ℚ) (h1 : -2 ≤ c) (h2 : c ≤ 0) :
    speedToFreq c = toInt (f32 (f32 (c * 200) + 1500)) := by
  unfold speedToFreq IDLE_RAW_SPEED
  rw [if_neg (not_lt.mpr h2)]
  have h := linear_toInt c 200 (by norm_num) h1 (by linarith)
  norm_num at h ⊢
  exact h

theorem speedToFreq_one : speedToFreq 1 = 1560 := by decide!

theorem speedToFreq_neg_one : speedToFreq (-1) = 1300 := by decide!

theorem setSpeed_direct_one (fuel : Nat) (w : Env) (s : Sys) (hc : s.car.cruiseControl = false) :
    setSpeed (fuel + 1) w 1 s = .returned
        { s with car := { s.car with _speed := 1 }
                 trace := s.trace ++ [Event.motorWrite 1560] } := by
  rw [setSpeed_direct_no_brake fuel w 1 s hc (by norm_num)]
  have h1 : constrain (1 : ℚ) MAX_BACK_SPEED MAX_FRONT_SPEED = 1 := by
    norm_num [constrain, MAX_BACK_SPEED, MAX_FRONT_SPEED]
  rw [h1, speedToFreq_one]
  rfl

theorem setSpeed_direct_neg_one (fuel : Nat) (w : Env) (s : Sys)
    (hc : s.car.cruiseControl = false) :
    setSpeed (fuel + 1) w (-1) s = .returned
        { s with car := { s.car with _speed := -1 }
                 trace := s.trace ++ [Event.motorWrite 1300] } := by
  rw [setSpeed_direct_no_brake fuel w (-1) s hc (by norm_num)]
  have h1 : constrain (-1 : ℚ) MAX_BACK_SPEED MAX_FRONT_SPEED = -1 := by
    norm_num [constrain, MAX_BACK_SPEED, MAX_FRONT_SPEED]
  rw [h1, speedToFreq_neg_one]
  rfl

/-! ## The brake sequence in cruise mode -/

/-- In cruise mode `Car::stop` comes back: after the brake block it writes the
idle actuation, re-enables cruise control with the default arguments and
stores the idle speed. -/
theorem stop_cruise (fuel : Nat) (w : Env) (s : Sys) (hc : s.car.cruiseControl = true) :
    stop (fuel + 1) w s = .returned
      { enableCruiseControl w
          (stopBrake w { s with trace := s.trace ++ [Event.brake] }).car._encoder
          DEFAULT_KP DEFAULT_KI DEFAULT_KD DEFAULT_PID_LOOP_INTERVAL
          (setRawSpeed IDLE_RAW_SPEED
            (stopBrake w { s with trace := s.trace ++ [Event.brake] })) with
        car := { (enableCruiseControl w
          (stopBrake w { s with trace := s.trace ++ [Event.brake] }).car._encoder
          DEFAULT_KP DEFAULT_KI DEFAULT_KD DEFAULT_PID_LOOP_INTERVAL
          (setRawSpeed IDLE_RAW_SPEED
            (stopBrake w { s with trace := s.trace ++ [Event.brake] }))).car with
          _speed := IDLE_SPEED } } := by
  have hc1 : (stopBrake w { s with trace := s.trace ++ [Event.brake] }).car.cruiseControl
      = true := by
    rw [(stopBrake_same w _).cruise]
    exact hc
  simp only [stop, hc1, if_true]
  rfl

/-- The trace after `stop` in cruise mode: the entry into the brake sequence,
the writes of the brake block, and the idle actuation. -/
theorem stop_cruise_trace (fuel : Nat) (w : Env) (s : Sys) (hc : s.car.cruiseControl = true) :
    ∃ rest, (stop (fuel + 1) w s).sys.trace =
      s.trace ++ Event.brake :: (rest ++ [Event.motorWrite IDLE_RAW_SPEED]) := by
  obtain ⟨new, hnew, -⟩ := stopBrake_continues w { s with trace := s.trace ++ [Event.brake] }
  refine ⟨new, ?_⟩
  rw [stop_cruise fuel w s hc]
  show (stopBrake w { s with trace := s.trace ++ [Event.brake] }).trace
    ++ [Event.motorWrite (constrain IDLE_RAW_SPEED MAX_BACK_RAW_SPEED MAX_FRONT_RAW_SPEED)] = _
  rw [hnew]
  have h : constrain IDLE_RAW_SPEED MAX_BACK_RAW_SPEED MAX_FRONT_RAW_SPEED = IDLE_RAW_SPEED := by
    decide
  rw [h]
  simp

/-! ## The sample states are reached from a new car -/

theorem idleDirect_reached : runOps 1 sampleEnv [Op.begin] newSys = idleDirect := by
  decide!

theorem drivingForward_reached :
    runOps 1 sampleEnv [Op.begin, Op.setSpeed 1] newSys = drivingForward := by
  decide!

theorem cruisingForward_reached :
    runOps 1 sampleEnv
      [Op.begin,
       Op.enableCruiseControl sampleOdometer DEFAULT_KP DEFAULT_KI DEFAULT_KD
         DEFAULT_PID_LOOP_INTERVAL,
       Op.setSpeed 1] newSys = cruisingForward := by
  decide!

theorem afterTick_reached :
    runOps 1 sampleEnv
      [Op.begin,
       Op.enableCruiseControl sampleOdometer DEFAULT_KP DEFAULT_KI DEFAULT_KD
         DEFAULT_PID_LOOP_INTERVAL,
       Op.setSpeed 2,
       Op.updateMotors] newSys = afterTick := by
  decide!

theorem creeping_reached :
    runOps 1 sampleEnv
      [Op.begin,
       Op.setSpeed 1,
       Op.enableCruiseControl sampleOdometer DEFAULT_KP DEFAULT_KI DEFAULT_KD
         DEFAULT_PID_LOOP_INTERVAL,
       Op.setSpeed (1 / 2000)] newSys = creeping := by
  decide!

/-! ## Enabling cruise control -/

/-- What `enableCruiseControl` assigns, and that it leaves `_previousError` as
it was. -/
theorem enableCruiseControl_fields (w : Env) (encoder : Odometer) (Kp Ki Kd : ℚ)
    (n : Nat) (s : Sys) :
    (enableCruiseControl w encoder Kp Ki Kd n s).car.cruiseControl = true ∧
    (enableCruiseControl w encoder Kp Ki Kd n s).car._integratedError = 0 ∧
    (enableCruiseControl w encoder Kp Ki Kd n s).car._previousControlledSpeed
      = IDLE_RAW_SPEED ∧
    (enableCruiseControl w encoder Kp Ki Kd n s).car._previousDistance
      = w.getDistance encoder s.reads % ULONG ∧
    (enableCruiseControl w encoder Kp Ki Kd n s).car._previousError
      = s.car._previousError :=
  ⟨rfl, rfl, rfl, rfl, rfl⟩

/-! ## The raw value of a direct-mode target -/

/-- The value `speedToFreq` gives for a clamped target no lower than `-1.5`
is already within the raw bounds. -/
theorem speedToFreq_within (c : ℚ) (h1 : -(3 / 2) ≤ c) (h2 : c ≤ 2) :
    MAX_BACK_RAW_SPEED ≤ speedToFreq c ∧ speedToFreq c ≤ MAX_FRONT_RAW_SPEED := by
  unfold MAX_BACK_RAW_SPEED MAX_FRONT_RAW_SPEED
  by_cases hpos : 0 < c
  · rw [speedToFreq_pos c hpos h2]
    have hp := f32_bounds (c * 60) 0 120 f32_zero f32_const_120 (by linarith) (by linarith)
    have hs := f32_bounds (f32 (c * 60) + 1500) 1500 1620 f32_const_1500 f32_const_1620
      (by linarith [hp.1]) (by linarith [hp.2])
    have ht := toInt_bounds_of_mem (f32 (f32 (c * 60) + 1500)) 1500 1620
      (by push_cast; exact hs.1) (by push_cast; exact hs.2)
    omega
  · have hle : c ≤ 0 := not_lt.mp hpos
    rw [speedToFreq_nonpos c (by linarith) hle]
    have hp := f32_bounds (c * 200) (-300) 0 f32_const_neg_300 f32_zero (by linarith)
      (by linarith)
    have hs := f32_bounds (f32 (c * 200) + 1500) 1200 1500 f32_const_1200 f32_const_1500
      (by linarith [hp.1]) (by linarith [hp.2])
    have ht := toInt_bounds_of_mem (f32 (f32 (c * 200) + 1500)) 1200 1500
      (by push_cast; exact hs.1) (by push_cast; exact hs.2)
    omega

/-- The value `speedToFreq` gives for a clamped target below `-1.5` is at most
the lower raw bound. -/
theorem speedToFreq_below (c : ℚ) (h1 : -2 ≤ c) (h2 : c < -(3 / 2)) :
    speedToFreq c ≤ MAX_BACK_RAW_SPEED := by
  unfold MAX_BACK_RAW_SPEED
  rw [speedToFreq_nonpos c h1 (by linarith)]
  have hp := f32_bounds (c * 200) (-400) (-300) f32_const_neg_400 f32_const_neg_300
    (by linarith) (by linarith)
  have hs := f32_bounds (f32 (c * 200) + 1500) 1100 1200 f32_const_1100 f32_const_1200
    (by linarith [hp.1]) (by linarith [hp.2])
  exact (toInt_bounds_of_mem (f32 (f32 (c * 200) + 1500)) 1100 1200
    (by push_cast; exact hs.1) (by push_cast; exact hs.2)).2

/-! ## The raw actuation applied after `stop` -/

theorem motorWrites_append (a b : List Event) :
    motorWrites (a ++ b) = motorWrites a ++ motorWrites b := by
  induction a with
  | nil => rfl
  | cons e t ih =>
    cases e with
    | motorWrite v => simp [motorWrites, ih]
    | steeringWrite v => simp [motorWrites, ih]
    | brake => simp [motorWrites, ih]

/-- A trace that ends with a motor write applies that value. -/
theorem lastRaw_of_trace_ends (s : Sys) (t : List Event) (v : Int)
    (h : s.trace = t ++ [Event.motorWrite v]) : lastRaw s = some v := by
  unfold lastRaw
  rw [h, motorWrites_append]
  simp [motorWrites]

theorem speedToFreq_zero : speedToFreq 0 = 1500 := by decide!

/-- With the stored speed inside the idle band, and either cruise mode or a
stored speed of exactly 0, `stop` comes back after recording its entry and
writing the idle actuation once. -/
theorem stop_idle_trace (fuel : Nat) (w : Env) (s : Sys)
    (h1 : -(1 / 1000) ≤ s.car._speed) (h2 : s.car._speed ≤ 1 / 1000)
    (hm : s.car.cruiseControl = true ∨ s.car._speed = 0) :
    ∃ s1, stop (fuel + 2) w s = .returned s1 ∧
      s1.trace = s.trace ++ [Event.brake, Event.motorWrite IDLE_RAW_SPEED] := by
  have hsb : stopBrake w { s with trace := s.trace ++ [Event.brake] }
      = { s with trace := s.trace ++ [Event.brake] } :=
    stopBrake_of_idle w _ h1 h2
  by_cases hc : s.car.cruiseControl = true
  · refine ⟨_, stop_cruise (fuel + 1) w s hc, ?_⟩
    rw [hsb]
    show (s.trace ++ [Event.brake])
      ++ [Event.motorWrite (constrain IDLE_RAW_SPEED MAX_BACK_RAW_SPEED MAX_FRONT_RAW_SPEED)]
        = _
    have h : constrain IDLE_RAW_SPEED MAX_BACK_RAW_SPEED MAX_FRONT_RAW_SPEED
        = IDLE_RAW_SPEED := by decide
    rw [h]
    simp
  · have hc0 : s.car.cruiseControl = false := by
      cases hcc : s.car.cruiseControl with
      | true => exact absurd hcc hc
      | false => rfl
    have h0 : s.car._speed = 0 := by
      rcases hm with h | h
      · exact absurd h hc
      · exact h
    have hnb : ¬ (({ s with trace := s.trace ++ [Event.brake] } : Sys).car._speed ≠ IDLE_SPEED ∧
        (IDLE_SPEED < 1 / 1000 ∧ IDLE_SPEED > -(1 / 1000))) := by
      rintro ⟨hne, -⟩
      exact hne h0
    have hset := setSpeed_direct_no_brake fuel w IDLE_SPEED
      { s with trace := s.trace ++ [Event.brake] } hc0 hnb
    have hstop : stop (fuel + 2) w s
        = setSpeed (fuel + 1) w IDLE_SPEED { s with trace := s.trace ++ [Event.brake] } := by
      simp only [stop, hsb, hc0]
      rfl
    rw [hstop, hset]
    refine ⟨_, rfl, ?_⟩
    · have hz : constrain IDLE_SPEED MAX_BACK_SPEED MAX_FRONT_SPEED = 0 := by
        norm_num [constrain, IDLE_SPEED, MAX_BACK_SPEED, MAX_FRONT_SPEED]
      show (s.trace ++ [Event.brake]) ++ [Event.motorWrite
        (constrain (speedToFreq (constrain IDLE_SPEED MAX_BACK_SPEED MAX_FRONT_SPEED))
          MAX_BACK_RAW_SPEED MAX_FRONT_RAW_SPEED)] = _
      rw [hz, speedToFreq_zero]
      have h : constrain (1500 : Int) MAX_BACK_RAW_SPEED MAX_FRONT_RAW_SPEED
          = IDLE_RAW_SPEED := by decide
      rw [h]
      simp

/-! ## Where `setSpeed` does come back, it stores the clamped target -/

/-- In cruise mode `setSpeed` comes back for every target, braking or not, and
the stored speed is then the target clamped to the cruise bounds. -/
theorem setSpeed_cruise_stores_clamped (fuel : Nat) (w : Env) (t : ℚ) (s : Sys)
    (hc : s.car.cruiseControl = true) :
    ∃ s1, setSpeed (fuel + 2) w t s = .returned s1 ∧
      getSpeed s1 = constrain t MAX_BACK_CRUISE_SPEED MAX_FRONT_CRUISE_SPEED := by
  by_cases hcond : s.car._speed ≠ IDLE_SPEED ∧ t * s.car._speed ≤ 0
  · obtain ⟨sb, hsb⟩ : ∃ sb, stop (fuel + 1) w s = .returned sb :=
      ⟨_, stop_cruise fuel w s hc⟩
    refine ⟨{ sb with car := { sb.car with
      _speed := constrain t MAX_BACK_CRUISE_SPEED MAX_FRONT_CRUISE_SPEED } }, ?_, rfl⟩
    simp only [setSpeed, hc, if_true, if_pos hcond, hsb, Outcome.andThen]
  · refine ⟨{ s with car := { s.car with
      _speed := constrain t MAX_BACK_CRUISE_SPEED MAX_FRONT_CRUISE_SPEED } }, ?_, rfl⟩
    simp only [setSpeed, hc, if_true, if_neg hcond, Outcome.andThen]

/-- In direct mode, when the brake condition does not fire, `setSpeed` comes
back and the stored speed is the target clamped to the direct-mode bounds. -/
theorem setSpeed_direct_stores_clamped (fuel : Nat) (w : Env) (t : ℚ) (s : Sys)
    (hc : s.car.cruiseControl = false)
    (hb : ¬ (s.car._speed ≠ IDLE_SPEED ∧ (t < 1 / 1000 ∧ t > -(1 / 1000)))) :
    ∃ s1, setSpeed (fuel + 1) w t s = .returned s1 ∧
      getSpeed s1 = constrain t MAX_BACK_SPEED MAX_FRONT_SPEED :=
  ⟨_, setSpeed_direct_no_brake fuel w t s hc hb, rfl⟩

/-! ## The controller -/

theorem add_fin_fin (a b : ℚ) :
    Velocity.add (.fin a) (.fin b) = Velocity.ofRat (a + b) := rfl

theorem mul_fin_fin (a b : ℚ) :
    Velocity.mul (.fin a) (.fin b) = Velocity.ofRat (a * b) := rfl

theorem sub_fin_fin (a b : ℚ) :
    Velocity.sub (.fin a) (.fin b) = Velocity.ofRat (a - b) := by
  show Velocity.ofRat (a + -b) = _
  rw [← sub_eq_add_neg]

theorem div_fin_fin (a b : ℚ) (hb : b ≠ 0) :
    Velocity.div (.fin a) (.fin b) = Velocity.ofRat (a / b) := by
  show (if b = 0 then _ else _) = _
  rw [if_neg hb]

theorem toInt_fin (q : ℚ) : (Velocity.fin q).toInt = floatToInt q := rfl

/-- The loop interval, an `unsigned short`, converts to `float` exactly. -/
theorem ofInt_interval (n : Nat) (h : n ≤ 65535) :
    Velocity.ofInt (n : Int) = .fin (n : ℚ) := by
  rw [ofInt_of_abs_le (n : Int) (by rw [abs_le]; omega)]
  norm_num

theorem abs_le_two_zpow_of_le (x : ℚ) (i j : ℤ) (h : |x| ≤ 2 ^ i) (hij : i ≤ j) :
    |x| ≤ 2 ^ j :=
  le_trans h (two_zpow_le i j hij)

/-- A product of bounded factors neither overflows nor leaves the bound. -/
theorem mul_fin_fin_of_abs_le (a b : ℚ) (i j : ℤ) (ha : |a| ≤ 2 ^ i) (hb : |b| ≤ 2 ^ j)
    (hlow : -149 ≤ i + j) (hij : i + j ≤ 127) :
    Velocity.mul (.fin a) (.fin b) = .fin (f32 (a * b)) ∧ |f32 (a * b)| ≤ 2 ^ (i + j) := by
  have h : |a * b| ≤ 2 ^ (i + j) := by
    rw [abs_mul, zpow_add₀ (by norm_num : (2 : ℚ) ≠ 0)]
    exact mul_le_mul ha hb (abs_nonneg _) (le_of_lt (two_zpow_pos i))
  exact ⟨by rw [mul_fin_fin, ofRat_of_abs_le _ _ hlow hij h], abs_f32_le _ _ hlow h⟩

/-- A sum of bounded terms neither overflows nor leaves twice the bound. -/
theorem add_fin_fin_of_abs_le (a b : ℚ) (i : ℤ) (ha : |a| ≤ 2 ^ i) (hb : |b| ≤ 2 ^ i)
    (hlow : -149 ≤ i + 1) (hi : i + 1 ≤ 127) :
    Velocity.add (.fin a) (.fin b) = .fin (f32 (a + b)) ∧ |f32 (a + b)| ≤ 2 ^ (i + 1) := by
  have h : |a + b| ≤ 2 ^ (i + 1) := by
    rw [zpow_add₀ (by norm_num : (2 : ℚ) ≠ 0), zpow_one]
    have := abs_add a b
    linarith
  exact ⟨by rw [add_fin_fin, ofRat_of_abs_le _ _ hlow hi h], abs_f32_le _ _ hlow h⟩

/-- A difference of bounded terms neither overflows nor leaves twice the bound. -/
theorem sub_fin_fin_of_abs_le (a b : ℚ) (i : ℤ) (ha : |a| ≤ 2 ^ i) (hb : |b| ≤ 2 ^ i)
    (hlow : -149 ≤ i + 1) (hi : i + 1 ≤ 127) :
    Velocity.sub (.fin a) (.fin b) = .fin (f32 (a - b)) ∧ |f32 (a - b)| ≤ 2 ^ (i + 1) := by
  have h : |a - b| ≤ 2 ^ (i + 1) := by
    rw [zpow_add₀ (by norm_num : (2 : ℚ) ≠ 0), zpow_one]
    have := abs_sub a b
    linarith
  exact ⟨by rw [sub_fin_fin, ofRat_of_abs_le _ _ hlow hi h], abs_f32_le _ _ hlow h⟩

/-- A bounded value divided by a positive loop interval neither overflows nor
leaves the bound. -/
theorem div_fin_interval_of_abs_le (a : ℚ) (n : Nat) (i : ℤ) (ha : |a| ≤ 2 ^ i) (hn : 0 < n)
    (hlow : -149 ≤ i) (hi : i ≤ 127) :
    Velocity.div (.fin a) (.fin (n : ℚ)) = .fin (f32 (a / (n : ℚ))) ∧
      |f32 (a / (n : ℚ))| ≤ 2 ^ i := by
  have hn1 : (1 : ℚ) ≤ (n : ℚ) := by exact_mod_cast hn
  have hne : (n : ℚ) ≠ 0 := by linarith
  have h : |a / (n : ℚ)| ≤ 2 ^ i := by
    rw [abs_div, abs_of_pos (by linarith : (0 : ℚ) < (n : ℚ))]
    exact le_trans (div_le_self (abs_nonneg a) hn1) ha
  exact ⟨by rw [div_fin_fin _ _ hne, ofRat_of_abs_le _ _ hlow hi h], abs_f32_le _ _ hlow h⟩

/-- An `int` converted to `float` is finite, of magnitude at most `2 ^ 31`. -/
theorem ofInt_of_int (z : Int) (h1 : INT_MIN ≤ z) (h2 : z ≤ INT_MAX) :
    Velocity.ofInt z = .fin (f32 (z : ℚ)) ∧ |f32 (z : ℚ)| ≤ 2 ^ (31 : ℤ) := by
  have h : |(z : ℚ)| ≤ 2 ^ (31 : ℤ) := by
    rw [abs_le]
    have h3 : ((INT_MIN : Int) : ℚ) ≤ (z : ℚ) := by exact_mod_cast h1
    have h4 : (z : ℚ) ≤ ((INT_MAX : Int) : ℚ) := by exact_mod_cast h2
    norm_num [INT_MIN, INT_MAX] at h3 h4 ⊢
    constructor <;> linarith
  exact ⟨ofRat_of_abs_le _ 31 (by norm_num) (by norm_num) h, abs_f32_le _ 31 (by norm_num) h⟩

/-- The controller where no `float` operation overflows: the loop interval is
positive, and the target, the measured speed and the gains are of magnitude at
most `2 ^ 31`.  Every operation then delivers the binary32 rounding of its
exact result. -/
theorem motorPIDcontrol_finite (prevRaw : Int) (target actual : ℚ) (c : Car)
    (hI : 0 < c._pidLoopInterval) (hn : c._pidLoopInterval ≤ 65535)
    (hie : INT_MIN ≤ c._integratedError ∧ c._integratedError ≤ INT_MAX)
    (hpe : INT_MIN ≤ c._previousError ∧ c._previousError ≤ INT_MAX)
    (ht : |target| ≤ 2 ^ (31 : ℤ)) (ha : |actual| ≤ 2 ^ (31 : ℤ))
    (hKp : |c._Kp| ≤ 2 ^ (31 : ℤ)) (hKi : |c._Ki| ≤ 2 ^ (31 : ℤ))
    (hKd : |c._Kd| ≤ 2 ^ (31 : ℤ)) :
    motorPIDcontrol prevRaw target actual c =
      (constrain (wrapInt (prevRaw + floatToInt (pidCorrection target actual c)))
        MAX_BACK_RAW_SPEED MAX_FRONT_RAW_SPEED,
       { c with
         _integratedError := pidIntegrator target actual c,
         _previousError := floatToInt (f32 (target - actual)) }) := by
  unfold pidCorrection pidIntegrator
  have hN := ofInt_interval c._pidLoopInterval hn
  have hNb : |(c._pidLoopInterval : ℚ)| ≤ 2 ^ (16 : ℤ) := by
    rw [abs_of_nonneg (by positivity)]
    have : (c._pidLoopInterval : ℚ) ≤ ((65535 : Nat) : ℚ) := by exact_mod_cast hn
    norm_num at this ⊢
    linarith
  obtain ⟨hE, hEb⟩ := sub_fin_fin_of_abs_le target actual 31 ht ha (by norm_num) (by norm_num)
  obtain ⟨hEN, hENb⟩ := mul_fin_fin_of_abs_le _ _ 32 16 hEb hNb (by norm_num) (by norm_num)
  obtain ⟨hIe, hIeb⟩ := ofInt_of_int c._integratedError hie.1 hie.2
  obtain ⟨hS, -⟩ := add_fin_fin_of_abs_le _ _ 48
    (abs_le_two_zpow_of_le _ 31 48 hIeb (by norm_num)) hENb (by norm_num) (by norm_num)
  have hIb := floatToInt_bounds (f32 (f32 (c._integratedError : ℚ)
    + f32 (f32 (target - actual) * (c._pidLoopInterval : ℚ))))
  obtain ⟨hI2, hI2b⟩ := ofInt_of_int _ hIb.1 hIb.2
  obtain ⟨hP, hPb⟩ := mul_fin_fin_of_abs_le _ _ 31 32 hKp hEb (by norm_num) (by norm_num)
  obtain ⟨hQ, hQb⟩ := mul_fin_fin_of_abs_le _ _ 31 31 hKi hI2b (by norm_num) (by norm_num)
  obtain ⟨hPQ, hPQb⟩ := add_fin_fin_of_abs_le _ _ 63 hPb
    (abs_le_two_zpow_of_le _ 62 63 hQb (by norm_num)) (by norm_num) (by norm_num)
  obtain ⟨hPe, hPeb⟩ := ofInt_of_int c._previousError hpe.1 hpe.2
  obtain ⟨hD, hDb⟩ := sub_fin_fin_of_abs_le _ _ 32 hEb
    (abs_le_two_zpow_of_le _ 31 32 hPeb (by norm_num)) (by norm_num) (by norm_num)
  obtain ⟨hKD, hKDb⟩ := mul_fin_fin_of_abs_le _ _ 31 33 hKd hDb (by norm_num) (by norm_num)
  obtain ⟨hDiv, hDivb⟩ := div_fin_interval_of_abs_le _ c._pidLoopInterval 64 hKDb hI
    (by norm_num) (by norm_num)
  obtain ⟨hT, -⟩ := add_fin_fin_of_abs_le _ _ 64 hPQb hDivb (by norm_num) (by norm_num)
  unfold motorPIDcontrol
  simp only [hN, hE, hEN, hIe, hS, toInt_fin, hI2, hP, hQ, hPQ, hPe, hD, hKD, hDiv, hT]

/-- What `motorPIDcontrol` leaves in the two accumulators where no `float`
operation overflows: both values pass through the conversion to `int`. -/
theorem motorPIDcontrol_accumulators (prevRaw : Int) (target actual : ℚ) (c : Car)
    (hI : 0 < c._pidLoopInterval) (hn : c._pidLoopInterval ≤ 65535)
    (hie : INT_MIN ≤ c._integratedError ∧ c._integratedError ≤ INT_MAX)
    (hpe : INT_MIN ≤ c._previousError ∧ c._previousError ≤ INT_MAX)
    (ht : |target| ≤ 2 ^ (31 : ℤ)) (ha : |actual| ≤ 2 ^ (31 : ℤ))
    (hKp : |c._Kp| ≤ 2 ^ (31 : ℤ)) (hKi : |c._Ki| ≤ 2 ^ (31 : ℤ))
    (hKd : |c._Kd| ≤ 2 ^ (31 : ℤ)) :
    (motorPIDcontrol prevRaw target actual c).2._previousError
      = floatToInt (f32 (target - actual)) ∧
    (motorPIDcontrol prevRaw target actual c).2._integratedError
      = floatToInt (f32 (f32 (c._integratedError : ℚ)
          + f32 (f32 (target - actual) * (c._pidLoopInterval : ℚ)))) := by
  rw [motorPIDcontrol_finite prevRaw target actual c hI hn hie hpe ht ha hKp hKi hKd]
  exact ⟨rfl, rfl⟩

theorem updateMotors_of_disabled (w : Env) (s : Sys) (hc : s.car.cruiseControl = false) :
    updateMotors w s = s := by
  unfold updateMotors
  rw [hc]
  rfl

theorem updateMotors_of_early (w : Env) (s : Sys) (hc : s.car.cruiseControl = true)
    (ht : ¬ intervalElapsed w s) :
    updateMotors w s = { s with reads := s.reads + 1 } := by
  unfold updateMotors
  rw [if_pos hc]
  simp only [readMillis]
  rw [if_neg]
  exact ht

theorem updateMotors_of_idle (w : Env) (s : Sys) (hc : s.car.cruiseControl = true)
    (ht : intervalElapsed w s) (h0 : s.car._speed = 0) :
    updateMotors w s =
      { s with
        car := { s.car with _lastMotorUpdate := w.millis (s.reads + 1) % ULONG }
        reads := s.reads + 2 } := by
  unfold updateMotors
  rw [if_pos hc]
  simp only [readMillis]
  rw [if_pos (by exact ht)]
  have hz : ¬ (({ s with reads := s.reads + 1 } : Sys).car._speed ≠ 0) := by
    intro h
    exact h h0
  rw [if_neg hz]

theorem tunedCruise_reached :
    runOps 1 sampleEnv
      [Op.begin, Op.enableCruiseControl sampleOdometer 7 1 3 25, Op.setSpeed 1] newSys
      = tunedCruise := by
  decide!

theorem cruiseIdle_reached :
    runOps 1 sampleEnv
      [Op.begin,
       Op.enableCruiseControl sampleOdometer DEFAULT_KP DEFAULT_KI DEFAULT_KD
         DEFAULT_PID_LOOP_INTERVAL] newSys = cruiseIdle := by
  decide!

/-! ## Monotonicity of the direct-mode conversion -/

theorem constrain_mono_rat (a b low high : ℚ) (hab : a ≤ b) (h : low ≤ high) :
    constrain a low high ≤ constrain b low high := by
  unfold constrain
  split_ifs <;> linarith

theorem constrain_mono_int (a b low high : Int) (hab : a ≤ b) (h : low ≤ high) :
    constrain a low high ≤ constrain b low high := by
  unfold constrain
  split_ifs <;> omega

theorem constrain_le_of_le (x low high m : Int) (hx : x ≤ m) (hl : low ≤ m) :
    constrain x low high ≤ m := by
  unfold constrain
  split_ifs <;> omega

theorem le_constrain_of_le (x low high m : Int) (hx : m ≤ x) (hh : m ≤ high) :
    m ≤ constrain x low high := by
  unfold constrain
  split_ifs <;> omega

theorem constrain_of_le_low (x low high : Int) (hx : x ≤ low) (h : low ≤ high) :
    constrain x low high = low := by
  unfold constrain
  split_ifs <;> omega

theorem speedToFreq_nonpos_le (c : ℚ) (h1 : -2 ≤ c) (h2 : c ≤ 0) :
    speedToFreq c ≤ IDLE_RAW_SPEED := by
  unfold IDLE_RAW_SPEED
  rw [speedToFreq_nonpos c h1 h2]
  have hp := f32_bounds (c * 200) (-400) 0 f32_const_neg_400 f32_zero (by linarith)
    (by linarith)
  have hs := f32_bounds (f32 (c * 200) + 1500) 1100 1500 f32_const_1100 f32_const_1500
    (by linarith [hp.1]) (by linarith [hp.2])
  exact (toInt_bounds_of_mem (f32 (f32 (c * 200) + 1500)) 1100 1500
    (by push_cast; exact hs.1) (by push_cast; exact hs.2)).2

theorem speedToFreq_pos_ge (c : ℚ) (h1 : 0 < c) (h2 : c ≤ 2) :
    IDLE_RAW_SPEED ≤ speedToFreq c := by
  unfold IDLE_RAW_SPEED
  rw [speedToFreq_pos c h1 h2]
  have hp := f32_bounds (c * 60) 0 120 f32_zero f32_const_120 (by linarith) (by linarith)
  have hs := f32_bounds (f32 (c * 60) + 1500) 1500 1620 f32_const_1500 f32_const_1620
    (by linarith [hp.1]) (by linarith [hp.2])
  exact (toInt_bounds_of_mem (f32 (f32 (c * 60) + 1500)) 1500 1620
    (by push_cast; exact hs.1) (by push_cast; exact hs.2)).1

/-- On the clamped range `[-2, 2]` the conversion `speedToFreq` is monotone:
each rounding and the truncation are. -/
theorem speedToFreq_mono (c1 c2 : ℚ) (h : c1 ≤ c2) (h1 : -2 ≤ c1) (h2 : c2 ≤ 2) :
    speedToFreq c1 ≤ speedToFreq c2 := by
  by_cases hp1 : 0 < c1
  · have hp2 : 0 < c2 := lt_of_lt_of_le hp1 h
    rw [speedToFreq_pos c1 hp1 (le_trans h h2), speedToFreq_pos c2 hp2 h2]
    apply toInt_mono
    apply f32_mono
    have := f32_mono (c1 * 60) (c2 * 60) (by linarith)
    linarith
  · have hn1 : c1 ≤ 0 := not_lt.mp hp1
    by_cases hp2 : 0 < c2
    · exact le_trans (speedToFreq_nonpos_le c1 h1 hn1) (speedToFreq_pos_ge c2 hp2 h2)
    · have hn2 : c2 ≤ 0 := not_lt.mp hp2
      rw [speedToFreq_nonpos c1 h1 hn1, speedToFreq_nonpos c2 (le_trans h1 h) hn2]
      apply toInt_mono
      apply f32_mono
      have := f32_mono (c1 * 200) (c2 * 200) (by linarith)
      linarith

/-- In direct mode without braking, `directRaw t` is the one value `setSpeed(t)`
writes. -/
theorem setSpeed_direct_writes_directRaw (fuel : Nat) (w : Env) (t : ℚ) (s : Sys)
    (hc : s.car.cruiseControl = false)
    (hb : ¬ (s.car._speed ≠ IDLE_SPEED ∧ (t < 1 / 1000 ∧ t > -(1 / 1000)))) :
    (setSpeed (fuel + 1) w t s).sys.trace = s.trace ++ [Event.motorWrite (directRaw t)] := by
  rw [setSpeed_direct_no_brake fuel w t s hc hb]
  rfl

/-! ## The elapsed time `getGroundSpeed` divides by -/

/-- The velocity `getGroundSpeed` returns is a finite quotient exactly when the
elapsed time it divides by is not 0. -/
theorem getGroundSpeed_isFinite (w : Env) (s : Sys) :
    (getGroundSpeed w s).1.isFinite = true ↔ sampleElapsed w s ≠ 0 := by
  show (if sampleElapsed w s = 0 then
      (if subULong (w.getDistance s.car._encoder s.reads % ULONG) s.car._previousDistance = 0
        then Velocity.nan else Velocity.pinf)
    else Velocity.fin _).isFinite = true ↔ _
  by_cases h : sampleElapsed w s = 0
  · rw [if_pos h]
    constructor
    · intro hf
      split_ifs at hf <;> simp [Velocity.isFinite] at hf
    · intro hne
      exact absurd h hne
  · rw [if_neg h]
    simp [Velocity.isFinite, h]

/-- The controller step samples the ground speed in the state `controlWritten`. -/
theorem controlStep_samples (w : Env) (s : Sys) :
    controlStep w s =
      { (getGroundSpeed w (controlWritten w s)).2 with
        car := { (getGroundSpeed w (controlWritten w s)).2.car with
          _lastMeasuredSpeed := (getGroundSpeed w (controlWritten w s)).1.mulSign
            (arduinoAbs (getGroundSpeed w (controlWritten w s)).2.car._speed
              / (getGroundSpeed w (controlWritten w s)).2.car._speed) } } := rfl

/-- From `updateMotors` the division is by a positive elapsed time: with a
non-decreasing clock that stays below `2 ^ 32`, a last-tick timestamp below
`2 ^ 32` and no wrap-around of `_lastMotorUpdate + _pidLoopInterval`, once the
guard of line 61 has passed, the elapsed time of the sample taken at line 68 is
positive. -/
theorem updateMotors_sample_elapsed_pos (w : Env) (s : Sys)
    (hmono : Monotone w.millis) (hclock : ∀ k, w.millis k < ULONG)
    (hsum : s.car._lastMotorUpdate + s.car._pidLoopInterval < ULONG)
    (ht : intervalElapsed w s) :
    0 < sampleElapsed w (controlWritten w { s with reads := s.reads + 1 }) := by
  show 0 < subULong (w.millis (s.reads + 1 + 1 + 1) % ULONG) s.car._lastMotorUpdate
  unfold intervalElapsed at ht
  have h3 := hclock (s.reads + 1 + 1 + 1)
  have h0 := hclock s.reads
  have hm : w.millis s.reads ≤ w.millis (s.reads + 1 + 1 + 1) := hmono (by omega)
  rw [Nat.mod_eq_of_lt h0, Nat.mod_eq_of_lt hsum] at ht
  unfold subULong
  have hl : s.car._lastMotorUpdate < ULONG := by omega
  rw [Nat.mod_eq_of_lt h3, Nat.mod_eq_of_lt h3, Nat.mod_eq_of_lt hl]
  have hU : ULONG = 4294967296 := by decide
  rw [hU] at h3 h0 hsum hl ⊢
  omega

/-! ## The rounded sum of the direct-mode conversion -/

/-- On the clamped range `speedToFreq` is the truncation of `directSum`. -/
theorem speedToFreq_eq_directSum (c : ℚ) (h1 : -2 ≤ c) (h2 : c ≤ 2) :
    speedToFreq c = toInt (directSum c) := by
  unfold directSum
  by_cases hpos : 0 < c
  · rw [if_pos hpos, speedToFreq_pos c hpos h2]
  · rw [if_neg hpos, speedToFreq_nonpos c h1 (not_lt.mp hpos)]

/-- The two roundings of `x + 1500`, `|x| ≤ 400`, lose at most `5 / 65536`. -/
theorem rounded_sum_close (x : ℚ) (h : |x| ≤ 400) :
    |f32 (f32 x + 1500) - (x + 1500)| ≤ 5 / 65536 := by
  have hx : |x| < 2 ^ ((8 : ℤ) + 1) := by
    norm_num
    linarith
  have h1 := f32_abs_sub_le_of_lt x 8 (by norm_num) hx
  have hb : |x| ≤ 2 ^ (9 : ℤ) := by
    norm_num
    linarith
  have h2 := abs_f32_le x 9 (by norm_num) hb
  have hy : |f32 x + 1500| < 2 ^ ((10 : ℤ) + 1) := by
    rw [abs_le] at h2
    rw [abs_lt]
    norm_num at h2 ⊢
    constructor <;> linarith
  have h3 := f32_abs_sub_le_of_lt (f32 x + 1500) 10 (by norm_num) hy
  have h4 : f32 (f32 x + 1500) - (x + 1500)
      = (f32 (f32 x + 1500) - (f32 x + 1500)) + (f32 x - x) := by ring
  rw [h4]
  have h5 := abs_add (f32 (f32 x + 1500) - (f32 x + 1500)) (f32 x - x)
  norm_num at h1 h3
  linarith

theorem directSum_close (c : ℚ) (h1 : -2 ≤ c) (h2 : c ≤ 2) :
    |directSum c - (c * (if c > 0 then 60 else 200) + 1500)| ≤ 5 / 65536 := by
  unfold directSum
  split_ifs with hpos
  · apply rounded_sum_close
    rw [abs_le]
    constructor <;> linarith
  · apply rounded_sum_close
    rw [abs_le]
    constructor <;> linarith

theorem zeroInterval_reached :
    runOps 1 sampleEnv
      [Op.begin, Op.enableCruiseControl sampleOdometer 5 0 10 0, Op.setSpeed 1] newSys
      = zeroInterval := by
  decide!

/-! # The claims -/

/-! ## C1 — raw actuation stays within the hardware bounds -/

/-- C1. Whatever the state, the environment, the call budget and the public
operation (`begin`, `setSpeed` for every target and in either mode, `setAngle`,
`stop`, `enableCruiseControl`, `updateMotors` with its `motorPIDcontrol`,
`disableCruiseControl`), the trace afterwards is the trace before followed by
new events, and every value the operation wrote to the motor lies in
`[MAX_BACK_RAW_SPEED, MAX_FRONT_RAW_SPEED] = [1200, 1800]`.  This covers the
writes of a call that is still in progress when the budget runs out. -/
theorem C1_raw_actuation_within_bounds (fuel : Nat) (w : Env) (op : Op) (s : Sys) :
    ∃ new : List Event, (exec fuel w op s).sys.trace = s.trace ++ new ∧
      ∀ v, Event.motorWrite v ∈ new →
        (MAX_BACK_RAW_SPEED ≤ v ∧ v ≤ MAX_FRONT_RAW_SPEED) ∧ (1200 ≤ v ∧ v ≤ 1800) := by
  have key : Continues s (exec fuel w op s).sys := by
    cases op with
    | begin =>
      simp only [exec, begin]
      have h := (setSpeed_stop_continues fuel w).1 IDLE_SPEED s
      cases hr : setSpeed fuel w IDLE_SPEED s with
      | returned s1 =>
        rw [hr] at h
        exact h.cont_trans ⟨[Event.steeringWrite _], rfl, by intro v hv; simp at hv⟩
      | running s1 =>
        rw [hr] at h
        exact h
    | setSpeed speed => exact (setSpeed_stop_continues fuel w).1 speed s
    | setAngle degrees =>
      exact ⟨[Event.steeringWrite _], rfl, by intro v hv; simp at hv⟩
    | stop => exact (setSpeed_stop_continues fuel w).2 s
    | enableCruiseControl encoder Kp Ki Kd frequency => exact Continues.of_trace_eq rfl
    | updateMotors => exact updateMotors_continues w s
    | disableCruiseControl => exact Continues.of_trace_eq rfl
  obtain ⟨new, hnew, hb⟩ := key
  exact ⟨new, hnew, fun v hv => ⟨hb v hv, hb v hv⟩⟩

/-! ## C2 — `stop()` in direct mode -/

/-- C2 (the code departs from it). In direct mode with stored speed 1 (the
state after `begin(); setSpeed(1.0)`), `stop()` does not come back for any call
budget and any clock and odometer readings: `stop` calls `setSpeed(IDLE_SPEED)`,
which calls `stop` again because the stored speed is still nonzero.  The
stored speed stays 1 and never becomes the idle speed 0. -/
theorem C2_stop_direct_moving_never_returns (fuel : Nat) (w : Env) :
    drivingForward.car.cruiseControl = false ∧
    ∃ s1, stop fuel w drivingForward = .running s1 ∧ getSpeed s1 = 1 ∧
      getSpeed s1 ≠ IDLE_SPEED := by
  refine ⟨rfl, ?_⟩
  have hs : drivingForward.car._speed ≠ 0 := by
    norm_num [drivingForward]
  obtain ⟨s1, h1, h2⟩ := (direct_moving_never_returns w fuel drivingForward rfl hs).1
  have h3 : getSpeed s1 = 1 := by
    rw [getSpeed, h2]
    rfl
  refine ⟨s1, h1, h3, ?_⟩
  rw [h3]
  norm_num [IDLE_SPEED]

/-! ## C3 — sign reversal and braking -/

/-- C3, counterexample. Direct mode, stored speed `+1 > 0.001`, new target
`-1` (so `s2 = 1 > 0.001`): `setSpeed(-1)` comes back having written only the
raw actuation of the new target, 1300; no entry into the brake sequence is
recorded. -/
theorem C3_counterexample_direct_reversal_no_brake :
    drivingForward.car._speed > 1 / 1000 ∧ (1 : ℚ) > 1 / 1000 ∧
    setSpeed 3 sampleEnv (-1) drivingForward = .returned
      { drivingForward with
        car := { drivingForward.car with _speed := -1 }
        trace := drivingForward.trace ++ [Event.motorWrite 1300] } ∧
    Event.brake ∉ (setSpeed 3 sampleEnv (-1) drivingForward).sys.trace := by
  have h := (setSpeed_direct_neg_one 2 sampleEnv drivingForward rfl)
  refine ⟨by norm_num [drivingForward], by norm_num, h, ?_⟩
  rw [h]
  simp [Outcome.sys, drivingForward]

/-- C3, amended. In cruise mode, with stored speed `s1 > 0.001` and new target
`-s2`, `s2 > 0.001`: `setSpeed(-s2)` first runs the brake sequence `stop()`,
which comes back in a state `sb` that does not depend on `s2`; the events of the
call start with the entry into the brake sequence; and after it `setSpeed` only
stores the clamped target, writing nothing more to the motor. -/
theorem C3_cruise_reversal_brakes_first (fuel : Nat) (w : Env) (s : Sys) (s2 : ℚ)
    (hc : s.car.cruiseControl = true) (h1 : s.car._speed > 1 / 1000) (h2 : s2 > 1 / 1000) :
    ∃ sb rest, stop (fuel + 1) w s = .returned sb ∧
      sb.trace = s.trace ++ Event.brake :: rest ∧
      setSpeed (fuel + 2) w (-s2) s = .returned
        { sb with car := { sb.car with
          _speed := constrain (-s2) MAX_BACK_CRUISE_SPEED MAX_FRONT_CRUISE_SPEED } } := by
  obtain ⟨rest, hrest⟩ := stop_cruise_trace fuel w s hc
  have hstop := stop_cruise fuel w s hc
  rw [hstop] at hrest
  refine ⟨_, _, hstop, hrest, ?_⟩
  have hcond : s.car._speed ≠ IDLE_SPEED ∧ -s2 * s.car._speed ≤ 0 := by
    constructor
    · unfold IDLE_SPEED
      intro h0
      rw [h0] at h1
      norm_num at h1
    · have hp : 0 < s.car._speed := lt_trans (by norm_num) h1
      have hq : 0 < s2 := lt_trans (by norm_num) h2
      nlinarith
  simp only [setSpeed, hc, if_true, if_pos hcond, hstop, Outcome.andThen]

/-- Witness of C3 (amended): the car cruising forward at 1 m/s is told to
reverse at 1 m/s. -/
theorem C3_cruise_reversal_brakes_first_witness :
    cruisingForward.car.cruiseControl = true ∧ cruisingForward.car._speed > 1 / 1000 ∧
    (1 : ℚ) > 1 / 1000 ∧
    ∃ sb rest, stop 1 sampleEnv cruisingForward = .returned sb ∧
      sb.trace = cruisingForward.trace ++ Event.brake :: rest ∧
      setSpeed 2 sampleEnv (-1) cruisingForward = .returned
        { sb with car := { sb.car with
          _speed := constrain (-1) MAX_BACK_CRUISE_SPEED MAX_FRONT_CRUISE_SPEED } } :=
  ⟨rfl, by norm_num [cruisingForward], by norm_num,
    C3_cruise_reversal_brakes_first 0 sampleEnv cruisingForward 1 rfl
      (by norm_num [cruisingForward]) (by norm_num)⟩

/-! ## C4 — what `enableCruiseControl` resets -/

/-- C4 (the code departs from it). After one controller tick with error 2 the
car holds `_previousError = 2`.  A following `enableCruiseControl` sets the
cruise flag, zeroes the integrated error, sets the previous controlled output
to `IDLE_RAW_SPEED = 1500` and takes the odometer reading (index 6 of the
sample environment, 300) as distance baseline, but it never assigns
`_previousError`: the previous error is still 2, not 0. -/
theorem C4_enable_keeps_previous_error :
    (enableCruiseControl sampleEnv sampleOdometer DEFAULT_KP DEFAULT_KI DEFAULT_KD
      DEFAULT_PID_LOOP_INTERVAL afterTick).car.cruiseControl = true ∧
    (enableCruiseControl sampleEnv sampleOdometer DEFAULT_KP DEFAULT_KI DEFAULT_KD
      DEFAULT_PID_LOOP_INTERVAL afterTick).car._integratedError = 0 ∧
    (enableCruiseControl sampleEnv sampleOdometer DEFAULT_KP DEFAULT_KI DEFAULT_KD
      DEFAULT_PID_LOOP_INTERVAL afterTick).car._previousControlledSpeed = 1500 ∧
    (enableCruiseControl sampleEnv sampleOdometer DEFAULT_KP DEFAULT_KI DEFAULT_KD
      DEFAULT_PID_LOOP_INTERVAL afterTick).car._previousDistance
        = sampleEnv.getDistance sampleOdometer 6 ∧
    (enableCruiseControl sampleEnv sampleOdometer DEFAULT_KP DEFAULT_KI DEFAULT_KD
      DEFAULT_PID_LOOP_INTERVAL afterTick).car._previousError = 2 ∧
    (enableCruiseControl sampleEnv sampleOdometer DEFAULT_KP DEFAULT_KI DEFAULT_KD
      DEFAULT_PID_LOOP_INTERVAL afterTick).car._previousError ≠ 0 := by
  refine ⟨rfl, rfl, rfl, by decide, rfl, by decide⟩

/-! ## C5 — steering angle round trip -/

/-- C6. In direct mode, whatever the stored speed, `setSpeed(1.0)` comes back
having written exactly one value to the motor, 1560, and `setSpeed(-1.0)`
exactly one value, 1300; the stored speed becomes the target, and no entry
into the brake sequence is recorded (the trace grows by the one motor write
only). -/
theorem C6_direct_literal_cases (fuel : Nat) (w : Env) (s : Sys)
    (hc : s.car.cruiseControl = false) :
    setSpeed (fuel + 1) w 1 s = .returned
        { s with car := { s.car with _speed := 1 }
                 trace := s.trace ++ [Event.motorWrite 1560] } ∧
    setSpeed (fuel + 1) w (-1) s = .returned
        { s with car := { s.car with _speed := -1 }
                 trace := s.trace ++ [Event.motorWrite 1300] } := by
  exact ⟨setSpeed_direct_one fuel w s hc, setSpeed_direct_neg_one fuel w s hc⟩

/-- Witness of C6: the car driving forward in direct mode. -/
theorem C6_direct_literal_cases_witness :
    drivingForward.car.cruiseControl = false ∧
    setSpeed 1 sampleEnv 1 drivingForward = .returned
        { drivingForward with car := { drivingForward.car with _speed := 1 }
                              trace := drivingForward.trace ++ [Event.motorWrite 1560] } ∧
    setSpeed 1 sampleEnv (-1) drivingForward = .returned
        { drivingForward with car := { drivingForward.car with _speed := -1 }
                              trace := drivingForward.trace ++ [Event.motorWrite 1300] } :=
  ⟨rfl, C6_direct_literal_cases 0 sampleEnv drivingForward rfl⟩

/-! ## C7 — the direct-mode conversion -/

/-- C7, counterexample. Direct mode, idle car.  Target `-2`: the clamped
target is `c = -2`, it is not forward, and the integer part of `c * 200 + 1500`
is 1100; the value written to the motor is 1200.  Target `4369 / 262144`
(a binary32 number, about 0.0167): the clamped target is the target itself,
it is forward, and the integer part of `c * 60 + 1500 = 1500.99998...` is 1500;
the value written to the motor is 1501, because the `float` sum is rounded
(to 1501.0) before it is converted. -/
theorem C7_counterexample_clamp_and_rounding :
    idleDirect.car.cruiseControl = false ∧
    constrain (-2 : ℚ) MAX_BACK_SPEED MAX_FRONT_SPEED = -2 ∧
    toInt ((-2 : ℚ) * 200 + 1500) = 1100 ∧
    setSpeed 1 sampleEnv (-2) idleDirect = .returned
      { idleDirect with
        car := { idleDirect.car with _speed := -2 }
        trace := idleDirect.trace ++ [Event.motorWrite 1200] } ∧
    constrain (4369 / 262144 : ℚ) MAX_BACK_SPEED MAX_FRONT_SPEED = 4369 / 262144 ∧
    f32 (4369 / 262144) = 4369 / 262144 ∧
    toInt ((4369 / 262144 : ℚ) * 60 + 1500) = 1500 ∧
    setSpeed 1 sampleEnv (4369 / 262144) idleDirect = .returned
      { idleDirect with
        car := { idleDirect.car with _speed := 4369 / 262144 }
        trace := idleDirect.trace ++ [Event.motorWrite 1501] } := by
  decide!

/-- C7, amended. In direct mode, for every target `t` that does not make the
brake condition fire (the stored speed is 0, or `t` is not strictly inside
`(-0.001, 0.001)`), with `c = constrain(t, -2, 2)`: `setSpeed(t)` comes back
having stored `c` and written exactly one value to the motor, the integer part
of the `float` sum `directSum c` clamped to `[1200, 1800]`, where
`directSum c` is `c * 60 + 1500` (forward, `c > 0`) or `c * 200 + 1500`
(otherwise) with the product and the sum each rounded to binary32.  The
rounded sum is within `5 / 65536` of the exact one.  The clamp changes nothing
when `c ≥ -1.5`, and gives 1200 when `c < -1.5`. -/
theorem C7_direct_raw_value (fuel : Nat) (w : Env) (t : ℚ) (s : Sys)
    (hc : s.car.cruiseControl = false)
    (hb : s.car._speed = IDLE_SPEED ∨ ¬ (t < 1 / 1000 ∧ t > -(1 / 1000))) :
    setSpeed (fuel + 1) w t s = .returned
      { s with
        car := { s.car with _speed := constrain t MAX_BACK_SPEED MAX_FRONT_SPEED }
        trace := s.trace ++ [Event.motorWrite
          (constrain (toInt (directSum (constrain t MAX_BACK_SPEED MAX_FRONT_SPEED)))
            1200 1800)] } ∧
    directSum (constrain t MAX_BACK_SPEED MAX_FRONT_SPEED)
      = (if constrain t MAX_BACK_SPEED MAX_FRONT_SPEED > 0
          then f32 (f32 (constrain t MAX_BACK_SPEED MAX_FRONT_SPEED * 60) + 1500)
          else f32 (f32 (constrain t MAX_BACK_SPEED MAX_FRONT_SPEED * 200) + 1500)) ∧
    |directSum (constrain t MAX_BACK_SPEED MAX_FRONT_SPEED)
        - (constrain t MAX_BACK_SPEED MAX_FRONT_SPEED
            * (if constrain t MAX_BACK_SPEED MAX_FRONT_SPEED > 0 then 60 else 200) + 1500)|
      ≤ 5 / 65536 ∧
    (-(3 / 2) ≤ constrain t MAX_BACK_SPEED MAX_FRONT_SPEED →
      constrain (toInt (directSum (constrain t MAX_BACK_SPEED MAX_FRONT_SPEED))) 1200 1800
        = toInt (directSum (constrain t MAX_BACK_SPEED MAX_FRONT_SPEED))) ∧
    (constrain t MAX_BACK_SPEED MAX_FRONT_SPEED < -(3 / 2) →
      constrain (toInt (directSum (constrain t MAX_BACK_SPEED MAX_FRONT_SPEED))) 1200 1800
        = 1200) := by
  have hcb := constrain_bounds t MAX_BACK_SPEED MAX_FRONT_SPEED
    (by norm_num [MAX_BACK_SPEED, MAX_FRONT_SPEED])
  have hlo : -2 ≤ constrain t MAX_BACK_SPEED MAX_FRONT_SPEED := hcb.1
  have hhi : constrain t MAX_BACK_SPEED MAX_FRONT_SPEED ≤ 2 := hcb.2
  have hfreq := speedToFreq_eq_directSum _ hlo hhi
  rw [← hfreq]
  refine ⟨?_, rfl, directSum_close _ hlo hhi, ?_, ?_⟩
  · have hnb : ¬ (s.car._speed ≠ IDLE_SPEED ∧ (t < 1 / 1000 ∧ t > -(1 / 1000))) := by
      rintro ⟨hne, hband⟩
      rcases hb with h | h
      · exact hne h
      · exact h hband
    exact setSpeed_direct_no_brake fuel w t s hc hnb
  · intro hlow
    have hw := speedToFreq_within _ hlow hhi
    exact constrain_of_mem _ _ _ hw.1 hw.2
  · intro hlow
    have hle := speedToFreq_below _ hlo hlow
    exact constrain_of_le_low _ _ _ hle (by decide)

/-- Witness of C7 (amended): the idle car in direct mode is given the target
`4369 / 262144`; the rounded sum is 1501 and 1501 is written. -/
theorem C7_direct_raw_value_witness :
    idleDirect.car.cruiseControl = false ∧ idleDirect.car._speed = IDLE_SPEED ∧
    directSum (constrain (4369 / 262144) MAX_BACK_SPEED MAX_FRONT_SPEED) = 1501 ∧
    setSpeed 1 sampleEnv (4369 / 262144) idleDirect = .returned
      { idleDirect with
        car := { idleDirect.car with
          _speed := constrain (4369 / 262144) MAX_BACK_SPEED MAX_FRONT_SPEED }
        trace := idleDirect.trace ++ [Event.motorWrite
          (constrain
            (toInt (directSum (constrain (4369 / 262144) MAX_BACK_SPEED MAX_FRONT_SPEED)))
            1200 1800)] } :=
  ⟨rfl, rfl, by decide!,
    (C7_direct_raw_value 0 sampleEnv (4369 / 262144) idleDirect rfl (Or.inl rfl)).1⟩

/-! ## C8 — the stored speed after `setSpeed` -/

/-- C8 (the code departs from it). In direct mode with stored speed 1,
`setSpeed(0)` does not come back for any call budget and any readings: the
brake condition fires, and `stop` and `setSpeed(IDLE_SPEED)` then call each
other without end.  The stored speed stays 1 and never becomes
`constrain(0, -2, 2) = 0`. -/
theorem C8_setSpeed_zero_direct_moving_never_returns (fuel : Nat) (w : Env) :
    drivingForward.car.cruiseControl = false ∧
    constrain (0 : ℚ) MAX_BACK_SPEED MAX_FRONT_SPEED = 0 ∧
    ∃ s1, setSpeed fuel w 0 drivingForward = .running s1 ∧ getSpeed s1 = 1 := by
  refine ⟨rfl, by norm_num [constrain, MAX_BACK_SPEED, MAX_FRONT_SPEED], ?_⟩
  have hs : drivingForward.car._speed ≠ 0 := by
    norm_num [drivingForward]
  obtain ⟨s1, h1, h2⟩ := (direct_moving_never_returns w fuel drivingForward rfl hs).2
  refine ⟨s1, h1, ?_⟩
  rw [getSpeed, h2]
  rfl

/-! ## C9 — `stop()` with the stored speed inside the idle band -/

/-- C9, counterexample. Cruise mode, stored speed `0.0005` (inside the idle
band), motor running at 1560: `stop()` writes the idle actuation, so the raw
actuation applied changes from 1560 to 1500. -/
theorem C9_counterexample_stop_changes_raw :
    (-(1 / 1000) ≤ creeping.car._speed ∧ creeping.car._speed ≤ 1 / 1000) ∧
    lastRaw creeping = some 1560 ∧
    stop 1 sampleEnv creeping = .returned
      { car := { creeping.car with _speed := 0, _previousDistance := 50 }
        trace := creeping.trace ++ [Event.brake, Event.motorWrite 1500]
        reads := 2 } ∧
    lastRaw (stop 1 sampleEnv creeping).sys = some 1500 ∧
    lastRaw (stop 1 sampleEnv creeping).sys ≠ lastRaw creeping := by
  decide!

/-- C9, amended. For every state whose stored speed lies within the idle band
`[-0.001, 0.001]`, in cruise mode or with a stored speed of exactly 0:
`stop()` comes back without any brake actuation, having written the idle
actuation `IDLE_RAW_SPEED` exactly once; the raw actuation applied afterwards
is `IDLE_RAW_SPEED`, so it is unchanged exactly when it was `IDLE_RAW_SPEED`
before. -/
theorem C9_stop_idle_writes_idle_once (fuel : Nat) (w : Env) (s : Sys)
    (h1 : -(1 / 1000) ≤ s.car._speed) (h2 : s.car._speed ≤ 1 / 1000)
    (hm : s.car.cruiseControl = true ∨ s.car._speed = 0) :
    ∃ s1, stop (fuel + 2) w s = .returned s1 ∧
      s1.trace = s.trace ++ [Event.brake, Event.motorWrite IDLE_RAW_SPEED] ∧
      lastRaw s1 = some IDLE_RAW_SPEED ∧
      (lastRaw s1 = lastRaw s ↔ lastRaw s = some IDLE_RAW_SPEED) := by
  obtain ⟨s1, hstop, htrace⟩ := stop_idle_trace fuel w s h1 h2 hm
  have hlast : lastRaw s1 = some IDLE_RAW_SPEED :=
    lastRaw_of_trace_ends s1 (s.trace ++ [Event.brake]) IDLE_RAW_SPEED
      (by rw [htrace]; simp)
  refine ⟨s1, hstop, htrace, hlast, ?_⟩
  rw [hlast]
  exact eq_comm

/-- Witness of C9 (amended): the creeping car in cruise mode. -/
theorem C9_stop_idle_writes_idle_once_witness :
    (-(1 / 1000) ≤ creeping.car._speed ∧ creeping.car._speed ≤ 1 / 1000) ∧
    creeping.car.cruiseControl = true ∧
    ∃ s1, stop 2 sampleEnv creeping = .returned s1 ∧
      s1.trace = creeping.trace ++ [Event.brake, Event.motorWrite IDLE_RAW_SPEED] ∧
      lastRaw s1 = some IDLE_RAW_SPEED ∧
      (lastRaw s1 = lastRaw creeping ↔ lastRaw creeping = some IDLE_RAW_SPEED) :=
  ⟨by norm_num [creeping], rfl,
    C9_stop_idle_writes_idle_once 0 sampleEnv creeping (by norm_num [creeping])
      (by norm_num [creeping]) (Or.inl rfl)⟩

/-! ## C10 — `stop()` in cruise mode -/

/-- C10. With cruise control enabled, `stop()` comes back, and afterwards the
cruise flag is still true, the stored target speed is 0, the last raw
actuation written is `IDLE_RAW_SPEED` (1500), the integrated error is 0, the
previous controlled output is `IDLE_RAW_SPEED`, and the distance baseline is
the reading of the car's odometer taken by the last environment read of the
call. -/
theorem C10_stop_cruise_rebaselines (fuel : Nat) (w : Env) (s : Sys)
    (hc : s.car.cruiseControl = true) :
    ∃ s1, stop (fuel + 1) w s = .returned s1 ∧
      s1.car.cruiseControl = true ∧
      getSpeed s1 = 0 ∧
      lastRaw s1 = some IDLE_RAW_SPEED ∧
      s1.car._integratedError = 0 ∧
      s1.car._previousControlledSpeed = IDLE_RAW_SPEED ∧
      IDLE_RAW_SPEED = 1500 ∧
      s1.car._encoder = s.car._encoder ∧
      s.reads < s1.reads ∧
      s1.car._previousDistance = w.getDistance s.car._encoder (s1.reads - 1) % ULONG := by
  have hstop := stop_cruise fuel w s hc
  obtain ⟨rest, hrest⟩ := stop_cruise_trace fuel w s hc
  rw [hstop] at hrest
  have henc : (stopBrake w { s with trace := s.trace ++ [Event.brake] }).car._encoder
      = s.car._encoder := (stopBrake_same w _).encoder
  refine ⟨_, hstop, rfl, rfl, ?_, rfl, rfl, rfl, henc, ?_, ?_⟩
  · exact lastRaw_of_trace_ends _ (s.trace ++ Event.brake :: rest) IDLE_RAW_SPEED
      (hrest.trans (by simp))
  · exact Nat.lt_succ_of_le
      (stopBrake_reads_le w { s with trace := s.trace ++ [Event.brake] })
  · show w.getDistance
        (stopBrake w { s with trace := s.trace ++ [Event.brake] }).car._encoder
        (stopBrake w { s with trace := s.trace ++ [Event.brake] }).reads % ULONG = _
    rw [henc]
    rfl

/-- Witness of C10: the car cruising forward at 1 m/s is stopped. -/
theorem C10_stop_cruise_rebaselines_witness :
    cruisingForward.car.cruiseControl = true ∧
    ∃ s1, stop 1 sampleEnv cruisingForward = .returned s1 ∧
      s1.car.cruiseControl = true ∧
      getSpeed s1 = 0 ∧
      lastRaw s1 = some IDLE_RAW_SPEED ∧
      s1.car._integratedError = 0 ∧
      s1.car._previousControlledSpeed = IDLE_RAW_SPEED ∧
      IDLE_RAW_SPEED = 1500 ∧
      s1.car._encoder = cruisingForward.car._encoder ∧
      cruisingForward.reads < s1.reads ∧
      s1.car._previousDistance
        = sampleEnv.getDistance cruisingForward.car._encoder (s1.reads - 1) % ULONG :=
  ⟨rfl, C10_stop_cruise_rebaselines 0 sampleEnv cruisingForward rfl⟩

/-! ## C11 — `setSpeed` in cruise mode without braking -/

/-- C12. For every state, `disableCruiseControl()` clears the cruise flag and
stores the last controlled raw output as the speed, so that `getSpeed()`
returns that raw-domain value; the trace is unchanged (nothing is written to
the motor), no environment read is made and no other field of the car
changes.  Right after `enableCruiseControl`, whatever its arguments, the
value `getSpeed()` returns is 1500. -/
theorem C12_disableCruiseControl_frame (s : Sys) :
    (disableCruiseControl s).car.cruiseControl = false ∧
    getSpeed (disableCruiseControl s) = (s.car._previousControlledSpeed : ℚ) ∧
    (disableCruiseControl s).trace = s.trace ∧
    (disableCruiseControl s).reads = s.reads ∧
    (disableCruiseControl s).car =
      { s.car with cruiseControl := false, _speed := (s.car._previousControlledSpeed : ℚ) } ∧
    (∀ (w : Env) (encoder : Odometer) (Kp Ki Kd : ℚ) (n : Nat),
      getSpeed (disableCruiseControl (enableCruiseControl w encoder Kp Ki Kd n s)) = 1500) := by
  refine ⟨rfl, rfl, rfl, rfl, rfl, ?_⟩
  intro w encoder Kp Ki Kd n
  show ((IDLE_RAW_SPEED : Int) : ℚ) = 1500
  norm_num [IDLE_RAW_SPEED]

/-! ## C13 — the output of `motorPIDcontrol` -/

/-- C14 (the code departs from it). Default gains and interval 40, integrated
error 0, target `1/64` m/s, measured speed 0: the error is `1/64` and
`error * loopInterval = 0.625`, of magnitude below 1.  `_previousError` and
`_integratedError` are `int` members, so after the call both hold 0: the
stored previous error is not `1/64` and the stored integrated error is not
`0 + 0.625`. -/
theorem C14_accumulators_lose_fraction :
    cruisingForward.car._integratedError = 0 ∧
    |((1 : ℚ) / 64 - 0) * (cruisingForward.car._pidLoopInterval : ℚ)| < 1 ∧
    (motorPIDcontrol 1500 (1 / 64) 0 cruisingForward.car).2._previousError = 0 ∧
    (((motorPIDcontrol 1500 (1 / 64) 0 cruisingForward.car).2._previousError : Int) : ℚ)
      ≠ 1 / 64 - 0 ∧
    (motorPIDcontrol 1500 (1 / 64) 0 cruisingForward.car).2._integratedError = 0 ∧
    (((motorPIDcontrol 1500 (1 / 64) 0 cruisingForward.car).2._integratedError : Int) : ℚ)
      ≠ (cruisingForward.car._integratedError : ℚ)
          + (1 / 64 - 0) * (cruisingForward.car._pidLoopInterval : ℚ) := by
  have hp : (motorPIDcontrol 1500 (1 / 64) 0 cruisingForward.car).2._previousError = 0 := by
    decide!
  have hi : (motorPIDcontrol 1500 (1 / 64) 0 cruisingForward.car).2._integratedError = 0 := by
    decide!
  refine ⟨rfl, ?_, hp, ?_, hi, ?_⟩
  · norm_num [cruisingForward, newCar, abs_lt]
  · rw [hp]
    norm_num
  · rw [hi]
    norm_num [cruisingForward, newCar]

/-! ## C15 — the controller in steady state -/

/-- C17. `updateMotors()`:
with cruise control disabled, leaves the whole state unchanged (it does not
even read the clock); with cruise control enabled and the interval not yet
elapsed, leaves the car and the trace unchanged; with the interval elapsed and
a stored target of 0, changes nothing in the car but `_lastMotorUpdate`, which
becomes the reading of the clock taken then, and writes nothing.  Hence a
write to the motor or a change of the integrated error, the previous error or
the previous controlled output happens only if cruise control is enabled, the
interval has elapsed and the stored target is nonzero. -/
theorem C17_updateMotors_frame (w : Env) (s : Sys) :
    (s.car.cruiseControl = false → updateMotors w s = s) ∧
    (s.car.cruiseControl = true → ¬ intervalElapsed w s →
      (updateMotors w s).car = s.car ∧ (updateMotors w s).trace = s.trace) ∧
    (s.car.cruiseControl = true → intervalElapsed w s → s.car._speed = 0 →
      (updateMotors w s).car =
        { s.car with _lastMotorUpdate := w.millis (s.reads + 1) % ULONG } ∧
      (updateMotors w s).trace = s.trace) ∧
    (((updateMotors w s).trace ≠ s.trace ∨
        (updateMotors w s).car._integratedError ≠ s.car._integratedError ∨
        (updateMotors w s).car._previousError ≠ s.car._previousError ∨
        (updateMotors w s).car._previousControlledSpeed ≠ s.car._previousControlledSpeed) →
      s.car.cruiseControl = true ∧ intervalElapsed w s ∧ s.car._speed ≠ 0) := by
  refine ⟨updateMotors_of_disabled w s, ?_, ?_, ?_⟩
  · intro hc ht
    rw [updateMotors_of_early w s hc ht]
    exact ⟨rfl, rfl⟩
  · intro hc ht h0
    rw [updateMotors_of_idle w s hc ht h0]
    exact ⟨rfl, rfl⟩
  · intro hchg
    by_contra hnot
    have hsame : (updateMotors w s).trace = s.trace ∧
        (updateMotors w s).car._integratedError = s.car._integratedError ∧
        (updateMotors w s).car._previousError = s.car._previousError ∧
        (updateMotors w s).car._previousControlledSpeed = s.car._previousControlledSpeed := by
      cases hc : s.car.cruiseControl with
      | false =>
        rw [updateMotors_of_disabled w s hc]
        exact ⟨rfl, rfl, rfl, rfl⟩
      | true =>
        by_cases ht : intervalElapsed w s
        · by_cases h0 : s.car._speed = 0
          · rw [updateMotors_of_idle w s hc ht h0]
            exact ⟨rfl, rfl, rfl, rfl⟩
          · exact absurd ⟨hc, ht, h0⟩ hnot
        · rw [updateMotors_of_early w s hc ht]
          exact ⟨rfl, rfl, rfl, rfl⟩
    rcases hchg with h | h | h | h
    · exact h hsame.1
    · exact h hsame.2.1
    · exact h hsame.2.2.1
    · exact h hsame.2.2.2

/-- Witness of C17: in direct mode `updateMotors()` changes nothing; in cruise
mode with target 0 and the interval elapsed (clock reading 200 against a last
tick at 0 and an interval of 40) it only sets `_lastMotorUpdate`, to the next
clock reading, 300. -/
theorem C17_updateMotors_frame_witness :
    updateMotors sampleEnv drivingForward = drivingForward ∧
    (cruiseIdle.car.cruiseControl = true ∧ intervalElapsed sampleEnv cruiseIdle ∧
      cruiseIdle.car._speed = 0) ∧
    (updateMotors sampleEnv cruiseIdle).car = { cruiseIdle.car with _lastMotorUpdate := 300 } ∧
    (updateMotors sampleEnv cruiseIdle).trace = cruiseIdle.trace :=
  ⟨(C17_updateMotors_frame sampleEnv drivingForward).1 rfl,
    ⟨rfl, by decide, rfl⟩,
    (C17_updateMotors_frame sampleEnv cruiseIdle).2.2.1 rfl (by decide) rfl⟩

/-! ## C18 — the gains after `stop()` in cruise mode -/

/-- C18. In cruise mode, whatever gains and loop interval the car holds (those
the caller passed to `enableCruiseControl`), `stop()` comes back with the
library defaults in their place: `Kp = 5`, `Ki = 0`, `Kd = 10`, interval 40. -/
theorem C18_stop_restores_default_gains (fuel : Nat) (w : Env) (s : Sys)
    (hc : s.car.cruiseControl = true) :
    ∃ s1, stop (fuel + 1) w s = .returned s1 ∧
      (s1.car._Kp = DEFAULT_KP ∧ s1.car._Ki = DEFAULT_KI ∧ s1.car._Kd = DEFAULT_KD ∧
        s1.car._pidLoopInterval = DEFAULT_PID_LOOP_INTERVAL) ∧
      (s1.car._Kp = 5 ∧ s1.car._Ki = 0 ∧ s1.car._Kd = 10 ∧ s1.car._pidLoopInterval = 40) :=
  ⟨_, stop_cruise fuel w s hc, ⟨rfl, rfl, rfl, rfl⟩, ⟨rfl, rfl, rfl, rfl⟩⟩

/-- Witness of C18: the car was enabled with `Kp = 7`, `Ki = 1`, `Kd = 3` and
interval 25. -/
theorem C18_stop_restores_default_gains_witness :
    (tunedCruise.car.cruiseControl = true ∧ tunedCruise.car._Kp = 7 ∧
      tunedCruise.car._Ki = 1 ∧ tunedCruise.car._Kd = 3 ∧
      tunedCruise.car._pidLoopInterval = 25) ∧
    ∃ s1, stop 1 sampleEnv tunedCruise = .returned s1 ∧
      (s1.car._Kp = DEFAULT_KP ∧ s1.car._Ki = DEFAULT_KI ∧ s1.car._Kd = DEFAULT_KD ∧
        s1.car._pidLoopInterval = DEFAULT_PID_LOOP_INTERVAL) ∧
      (s1.car._Kp = 5 ∧ s1.car._Ki = 0 ∧ s1.car._Kd = 10 ∧ s1.car._pidLoopInterval = 40) :=
  ⟨⟨rfl, rfl, rfl, rfl, rfl⟩, C18_stop_restores_default_gains 0 sampleEnv tunedCruise rfl⟩

/-! ## C19 — the direct-mode conversion is monotone -/

/-- C19. For all targets `t1 ≤ t2`, the raw value written for `t1`,
`clamp(speedToFreq(clamp(t1, -2, 2)), 1200, 1800)`, is at most the raw value
written for `t2`; every backward or zero target maps to a value `≤ 1500` and
every forward target to a value `≥ 1500`. -/
theorem C19_direct_conversion_monotone (t1 t2 : ℚ) (h : t1 ≤ t2) :
    directRaw t1 ≤ directRaw t2 ∧
    directRaw t1 = constrain (speedToFreq (constrain t1 (-2) 2)) 1200 1800 ∧
    (∀ t : ℚ, t ≤ 0 → directRaw t ≤ 1500) ∧
    (∀ t : ℚ, 0 < t → 1500 ≤ directRaw t) := by
  have hb : ∀ t : ℚ, MAX_BACK_SPEED ≤ constrain t MAX_BACK_SPEED MAX_FRONT_SPEED ∧
      constrain t MAX_BACK_SPEED MAX_FRONT_SPEED ≤ MAX_FRONT_SPEED := fun t =>
    constrain_bounds t _ _ (by norm_num [MAX_BACK_SPEED, MAX_FRONT_SPEED])
  refine ⟨?_, rfl, ?_, ?_⟩
  · unfold directRaw
    apply constrain_mono_int _ _ _ _ _ (by decide)
    apply speedToFreq_mono
    · exact constrain_mono_rat _ _ _ _ h (by norm_num [MAX_BACK_SPEED, MAX_FRONT_SPEED])
    · exact (hb t1).1
    · exact (hb t2).2
  · intro t ht
    have hc : constrain t MAX_BACK_SPEED MAX_FRONT_SPEED ≤ 0 := by
      unfold constrain MAX_BACK_SPEED MAX_FRONT_SPEED
      split_ifs <;> linarith
    have hle := speedToFreq_nonpos_le _ (hb t).1 hc
    exact constrain_le_of_le _ _ _ 1500 hle (by decide)
  · intro t ht
    have hc : 0 < constrain t MAX_BACK_SPEED MAX_FRONT_SPEED := by
      unfold constrain MAX_BACK_SPEED MAX_FRONT_SPEED
      split_ifs <;> linarith
    have hge := speedToFreq_pos_ge _ hc (hb t).2
    exact le_constrain_of_le _ _ _ 1500 hge (by decide)

/-- Witness of C19: the targets `-2 ≤ 1`, written as 1200 and 1560. -/
theorem C19_direct_conversion_monotone_witness :
    (-2 : ℚ) ≤ 1 ∧ directRaw (-2) = 1200 ∧ directRaw 1 = 1560 ∧
    directRaw (-2) ≤ directRaw 1 :=
  ⟨by norm_num, by decide!, by decide!,
    (C19_direct_conversion_monotone (-2) 1 (by norm_num)).1⟩

/-! ## C20 — the elapsed time `getGroundSpeed()` divides by -/

/-- C20 (the code departs from it). The car cruises forward at 1 m/s and
`stop()` is called while the clock does not advance between two readings (a
non-decreasing clock; the loop interval is 40).  `stop()` stores the clock
reading in `_lastMotorUpdate` and samples the ground speed at once, so the
elapsed time the sample divides by is 0, not strictly positive: the velocity is
`+inf`, not a finite quotient.  The brake decision is taken on that value: the
car brakes. -/
theorem C20_stop_samples_with_zero_elapsed :
    Monotone sameMillisecond.millis ∧
    (cruisingForward.car._speed > 1 / 1000 ∨ cruisingForward.car._speed < -(1 / 1000)) ∧
    brakeSampleElapsed sameMillisecond cruisingForward = 0 ∧
    brakeSample sameMillisecond cruisingForward = Velocity.pinf ∧
    (brakeSample sameMillisecond cruisingForward).isFinite = false ∧
    (stop 1 sameMillisecond cruisingForward).sys.trace =
      cruisingForward.trace ++
        [Event.brake, Event.motorWrite 1300, Event.motorWrite 1500, Event.motorWrite 1500] := by
  refine ⟨monotone_const, Or.inl (by norm_num [cruisingForward]), by decide!, by decide!,
    by decide!, by decide!⟩

end CaroloCup
